import Mathlib

/-!
Verification of claude-max-api-proxy against its specification.

The development shallowly embeds the repository's JavaScript/TypeScript
sources in Lean:

* `dist/session/manager.js` — the Session Store (`SessionManager`):
  a JS `Map` from conversation ids to session mappings, modelled as an
  association list with unique keys; the nondeterministic parts of the
  environment (uuidv4, Date.now) are threaded as explicit parameters
  (`freshId`, `now`); the fire-and-forget `save()` call is recorded as a
  boolean effect flag on each operation's result.
* `dist/adapter/cli-to-openai.js` — `createDoneChunk`,
  `cliResultToOpenai`, `normalizeModelName` (JS `String.includes` is
  modelled with a substring occurrence test via `String.splitOn`).
* `dist/server/routes.js` — the streaming SSE handler
  (`handleStreamingResponse`, "smart streaming": per-turn delta
  buffering), the non-streaming handler (`handleNonStreamingResponse`),
  the `resume_failed` listener of `handleChatCompletions`, and the
  `ProgressReporter` class (throttled Telegram progress messages).

Subprocess events are modelled as a list of typed events, processed in
order (the event loop delivers them sequentially).  Client-visible SSE
output and Telegram API invocations are modelled as traces of structured
values; JSON serialization is out of scope.  Wall-clock timestamps
(`Date.now`) are threaded as `Nat` parameters; the `created` field of
OpenAI chunks is one fixed timestamp parameter per request, since no
verified property depends on it.
-/

/- ───────────────────────── Session Store ───────────────────────── -/

/-- A `SessionMapping` object (`dist/session/manager.js`).  `messageCount`
is absent on a freshly created mapping (the JS object has no such field)
and is set by the request handler's resume path; we model the optional
field with `Option Nat` (`existing.messageCount || 0` reads it with
default 0). -/
structure SessionMapping where
  conversationId : String
  claudeSessionId : String
  createdAt : Nat
  lastUsedAt : Nat
  model : String
  messageCount : Option Nat
deriving Repr, DecidableEq

/-- The `sessions` JS `Map`, as an association list (insertion order kept,
keys unique — the uniqueness invariant `keysUnique` below). -/
abbrev SessionMap := List (String × SessionMapping)

/-- `Map.get`: first entry with the given key. -/
def sessionsGet : SessionMap → String → Option SessionMapping
  | [], _ => none
  | p :: rest, cid => if p.1 = cid then some p.2 else sessionsGet rest cid

/-- `Map.set`: replace in place if the key exists, else append. -/
def sessionsSet : SessionMap → String → SessionMapping → SessionMap
  | [], cid, v => [(cid, v)]
  | p :: rest, cid, v =>
    if p.1 = cid then (cid, v) :: rest else p :: sessionsSet rest cid v

/-- `Map.delete`: removes the entry with the given key.  A JS `Map` has at
most one entry per key, so deletion is a filter. -/
def sessionsRemove (m : SessionMap) (cid : String) : SessionMap :=
  m.filter fun p => !(p.1 == cid)

/-- Keys of the map are pairwise distinct (always true of a JS `Map`). -/
def keysUnique : SessionMap → Bool
  | [] => true
  | p :: rest => (sessionsGet rest p.1).isNone && keysUnique rest

/-- Session TTL: 24 hours (`SESSION_TTL_MS`). -/
def SESSION_TTL_MS : Nat := 24 * 60 * 60 * 1000

/-- Result of `SessionManager.getOrCreate`: the returned Claude session
id, the updated map, and whether a `save()` was triggered. -/
structure GetOrCreateResult where
  sid : String
  map : SessionMap
  saved : Bool
deriving Repr, DecidableEq

/-- `SessionManager.getOrCreate(conversationId, model)`.  `freshId` is the
`uuidv4()` value drawn on the create path, `now` is `Date.now()`.  The
existing path refreshes `lastUsedAt` and `model` and returns the stored
id without saving; the create path stores a new mapping and triggers a
fire-and-forget `save()`. -/
def getOrCreate (m : SessionMap) (conversationId : String) (model : String)
    (freshId : String) (now : Nat) : GetOrCreateResult :=
  match sessionsGet m conversationId with
  | some existing =>
    ⟨existing.claudeSessionId,
     sessionsSet m conversationId { existing with lastUsedAt := now, model := model },
     false⟩
  | none =>
    let mapping : SessionMapping :=
      ⟨conversationId, freshId, now, now, model, none⟩
    ⟨freshId, sessionsSet m conversationId mapping, true⟩

/-- Result of `SessionManager.delete`. -/
structure DeleteResult where
  deleted : Bool
  map : SessionMap
  saved : Bool
deriving Repr, DecidableEq

/-- `SessionManager.delete(conversationId)`: removes the entry and saves
only when an entry was actually removed. -/
def sessionsDeleteOp (m : SessionMap) (cid : String) : DeleteResult :=
  let existed := (sessionsGet m cid).isSome
  ⟨existed, sessionsRemove m cid, existed⟩

/-- Result of `SessionManager.cleanup`. -/
structure CleanupResult where
  removed : Nat
  map : SessionMap
  saved : Bool
deriving Repr, DecidableEq

/-- `SessionManager.cleanup()`: TTL sweep.  `cutoff = now - TTL` uses
truncated `Nat` subtraction; when `now < TTL` the JS cutoff is negative
and `lastUsedAt < cutoff` is false for every entry, which coincides with
`lastUsedAt < 0` being false on `Nat`.  Saves only when at least one
entry was removed. -/
def sessionsCleanup (m : SessionMap) (now : Nat) : CleanupResult :=
  let cutoff := now - SESSION_TTL_MS
  let kept := m.filter fun p => ! decide (p.2.lastUsedAt < cutoff)
  let removed := m.length - kept.length
  ⟨removed, kept, decide (0 < removed)⟩

/-- Result of the request handler's resume path. -/
structure TouchResult where
  map : SessionMap
  saved : Bool
deriving Repr, DecidableEq

/-- The resume path of `handleChatCompletions` (routes, lines 261-275):
when a stored session exists it refreshes `lastUsedAt`, increments
`messageCount` (`(existing.messageCount || 0) + 1`) and triggers
`sessionManager.save()`. -/
def resumeTouch (m : SessionMap) (cid : String) (now : Nat) : TouchResult :=
  match sessionsGet m cid with
  | some existing =>
    ⟨sessionsSet m cid
       { existing with lastUsedAt := now,
                       messageCount := some (existing.messageCount.getD 0 + 1) },
     true⟩
  | none => ⟨m, false⟩

/-- One Session Store / request-handler operation, for reasoning about
operation sequences. -/
inductive SessionOp
  | goc (cid model freshId : String) (now : Nat)
  | touch (cid : String) (now : Nat)
  | del (cid : String)
  | sweep (now : Nat)
deriving Repr, DecidableEq

/-- Effect of one operation on the session map. -/
def applyOp (m : SessionMap) : SessionOp → SessionMap
  | .goc cid model fresh now => (getOrCreate m cid model fresh now).map
  | .touch cid now => (resumeTouch m cid now).map
  | .del cid => (sessionsDeleteOp m cid).map
  | .sweep now => (sessionsCleanup m now).map

/-- The conversation id has a stored mapping before and after every
operation of the sequence. -/
def presentThroughout (cid : String) : SessionMap → List SessionOp → Bool
  | m, [] => (sessionsGet m cid).isSome
  | m, op :: rest =>
    (sessionsGet m cid).isSome && presentThroughout cid (applyOp m op) rest

/- ─────────────────── cli-to-openai adapter ─────────────────── -/

/-- Occurrence test standing for JS `model.includes(pat)`: the string
splits into more than one piece on the pattern iff the pattern occurs. -/
def strContainsSub (s pat : String) : Bool :=
  decide (1 < (s.splitOn pat).length)

/-- `normalizeModelName(model)` (`dist/adapter/cli-to-openai.js`); the
argument may be JS `undefined` (`none`); `""` is falsy and also maps to
the default. -/
def normalizeModelName (model : Option String) : String :=
  match model with
  | none => "claude-sonnet-4"
  | some m =>
    if m = "" then "claude-sonnet-4"
    else if strContainsSub m "opus" then "claude-opus-4"
    else if strContainsSub m "sonnet" then "claude-sonnet-4"
    else if strContainsSub m "haiku" then "claude-haiku-4"
    else m

/-- One choice of an OpenAI streaming chunk: `delta.role`,
`delta.content` (absent fields = `none`) and `finish_reason`
(`none` = JSON `null`). -/
structure ChunkChoice where
  index : Nat
  deltaRole : Option String
  deltaContent : Option String
  finishReason : Option String
deriving Repr, DecidableEq

/-- An OpenAI `chat.completion.chunk` object. -/
structure OpenAIChunk where
  id : String
  object : String
  created : Nat
  model : String
  choices : List ChunkChoice
deriving Repr, DecidableEq

/-- `createDoneChunk(requestId, model)`: terminal chunk with empty delta
and `finish_reason: "stop"`; the model name is normalized. -/
def createDoneChunk (requestId model : String) (created : Nat) : OpenAIChunk :=
  ⟨"chatcmpl-" ++ requestId, "chat.completion.chunk", created,
   normalizeModelName (some model),
   [⟨0, none, none, some "stop"⟩]⟩

/-- Usage block of a CLI `result` event (`result.usage?.input_tokens`,
`result.usage?.output_tokens`; both optional). -/
structure CliUsage where
  inputTokens : Option Nat
  outputTokens : Option Nat
deriving Repr, DecidableEq

/-- A CLI terminal `result` event payload.  `modelUsage` is the key list
of the JS `modelUsage` object when present (`Object.keys(...)[0]` reads
its first key). -/
structure CliResult where
  result : String
  modelUsage : Option (List String)
  usage : Option CliUsage
deriving Repr, DecidableEq

/-- Message of an OpenAI non-streaming choice. -/
structure OpenAIMessage where
  role : String
  content : String
deriving Repr, DecidableEq

/-- Choice of an OpenAI non-streaming response. -/
structure OpenAIChoice where
  index : Nat
  message : OpenAIMessage
  finishReason : String
deriving Repr, DecidableEq

/-- Usage block of an OpenAI response. -/
structure OpenAIUsage where
  promptTokens : Nat
  completionTokens : Nat
  totalTokens : Nat
deriving Repr, DecidableEq

/-- An OpenAI `chat.completion` (non-streaming) response. -/
structure OpenAIChatResponse where
  id : String
  object : String
  created : Nat
  model : String
  choices : List OpenAIChoice
  usage : OpenAIUsage
deriving Repr, DecidableEq

/-- `cliResultToOpenai(result, requestId)`: builds the non-streaming 200
response from the terminal CLI result. -/
def cliResultToOpenai (result : CliResult) (requestId : String)
    (created : Nat) : OpenAIChatResponse :=
  let modelName : Option String :=
    match result.modelUsage with
    | some keys => keys.head?
    | none => some "claude-sonnet-4"
  let inTok := (result.usage.bind (·.inputTokens)).getD 0
  let outTok := (result.usage.bind (·.outputTokens)).getD 0
  ⟨"chatcmpl-" ++ requestId, "chat.completion", created,
   normalizeModelName modelName,
   [⟨0, ⟨"assistant", result.result⟩, "stop"⟩],
   ⟨inTok, outTok, inTok + outTok⟩⟩

/- ─────────────────── Subprocess event stream ─────────────────── -/

/-- Typed subprocess events as delivered to the route handlers:
`message`/`stream_event` boundaries and tool-call starts, `content_delta`,
`assistant` (model name), terminal `result`, `error`, process `close`,
and the `resume_failed` signal. -/
inductive CliEvent
  | messageStart
  | contentBlockStart (blockType : String) (blockName : Option String)
  | contentDelta (text : String)
  | assistant (model : String)
  | result (r : CliResult)
  | errorEvent (message : String)
  | closeEvent (code : Int)
  | resumeFailed
deriving Repr, DecidableEq

/- ─────────────────── Streaming handler (SSE) ─────────────────── -/

/-- One client-visible SSE write: the initial `:ok` comment, a
`data: <chunk>` line, a `data: <error json>` line, or the literal
`data: [DONE]` marker. -/
inductive SSEWrite
  | comment (text : String)
  | dataWrite (chunk : OpenAIChunk)
  | errorWrite (message : String)
  | doneMarker
deriving Repr, DecidableEq

/-- Mutable state of `handleStreamingResponse`'s closure: `lastModel`,
`isComplete`, the smart-streaming `turnBuffer` and `turnCount`, and
whether the response stream has been ended (`res.writableEnded`). -/
structure StreamingState where
  lastModel : String
  isComplete : Bool
  turnBuffer : List String
  turnCount : Nat
  writableEnded : Bool
deriving Repr, DecidableEq

/-- State at the top of `handleStreamingResponse`'s promise body. -/
def initialStreamingState : StreamingState :=
  ⟨"claude-sonnet-4", false, [], 0, false⟩

/-- One content chunk written on `result` for one buffered delta text
(`delta.role` is `"assistant"` on the first chunk only,
`finish_reason: null`). -/
def contentChunk (requestId model : String) (created : Nat)
    (isFirst : Bool) (text : String) : OpenAIChunk :=
  ⟨"chatcmpl-" ++ requestId, "chat.completion.chunk", created, model,
   [⟨0, if isFirst then some "assistant" else none, some text, none⟩]⟩

/-- The flush loop of the `result` handler: one `data:` write per
buffered delta, `isFirst` true only for the first. -/
def contentChunkWrites (requestId model : String) (created : Nat) :
    Bool → List String → List SSEWrite
  | _, [] => []
  | isFirst, t :: rest =>
    .dataWrite (contentChunk requestId model created isFirst t) ::
      contentChunkWrites requestId model created false rest

/-- One event-handler step of `handleStreamingResponse`: the state
update and the SSE writes it performs.  Mirrors the `message`,
`content_delta`, `assistant`, `result`, `error` and `close` listeners;
`content_block_start` only feeds the progress side channel (modelled
separately) and `resume_failed` only the session store. -/
def stepStreaming (requestId : String) (created : Nat)
    (st : StreamingState) : CliEvent → StreamingState × List SSEWrite
  | .messageStart =>
    ({ st with turnCount := st.turnCount + 1, turnBuffer := [] }, [])
  | .contentBlockStart _ _ => (st, [])
  | .contentDelta text =>
    (if text = "" then st
     else { st with turnBuffer := st.turnBuffer ++ [text] }, [])
  | .assistant model => ({ st with lastModel := model }, [])
  | .result _ =>
    let st1 := { st with isComplete := true }
    if st1.writableEnded then (st1, [])
    else
      ({ st1 with turnBuffer := [], writableEnded := true },
       contentChunkWrites requestId st1.lastModel created true st1.turnBuffer
         ++ [.dataWrite (createDoneChunk requestId st1.lastModel created),
             .doneMarker])
  | .errorEvent message =>
    if st.writableEnded then (st, [])
    else ({ st with writableEnded := true }, [.errorWrite message])
  | .closeEvent code =>
    if st.writableEnded then (st, [])
    else
      ({ st with writableEnded := true },
       (if code ≠ 0 ∧ st.isComplete = false then
          [SSEWrite.errorWrite ("Process exited with code " ++ toString code)]
        else []) ++ [SSEWrite.doneMarker])
  | .resumeFailed => (st, [])

/-- Process a list of subprocess events, concatenating the SSE writes. -/
def foldStreaming (requestId : String) (created : Nat) :
    StreamingState → List CliEvent → StreamingState × List SSEWrite
  | st, [] => (st, [])
  | st, e :: rest =>
    let r1 := stepStreaming requestId created st e
    let r2 := foldStreaming requestId created r1.1 rest
    (r2.1, r1.2 ++ r2.2)

/-- Full streaming run: the handler first writes the `:ok` comment, then
processes the event stream. -/
def runStreaming (requestId : String) (created : Nat)
    (evs : List CliEvent) : StreamingState × List SSEWrite :=
  let r := foldStreaming requestId created initialStreamingState evs
  (r.1, SSEWrite.comment ":ok" :: r.2)

/-- Delta text contents of the data chunks of an SSE write list (the
assistant text the client sees, in order). -/
def chunkContentTexts (ws : List SSEWrite) : List String :=
  ws.filterMap fun w =>
    match w with
    | .dataWrite c => c.choices.head?.bind (·.deltaContent)
    | _ => none

/-- Events that precede the terminal phase of a stream: everything except
`result`, `error` and `close`. -/
def isPreTerminal : CliEvent → Bool
  | .result _ => false
  | .errorEvent _ => false
  | .closeEvent _ => false
  | _ => true

/-- Number of `message_start` boundaries in an event list. -/
def countMessageStarts (evs : List CliEvent) : Nat :=
  (evs.filter fun e => match e with
    | CliEvent.messageStart => true
    | _ => false).length

/-- All `content_block_delta` texts of an event list, in order. -/
def allDeltaTexts (evs : List CliEvent) : List String :=
  evs.filterMap fun e => match e with
    | CliEvent.contentDelta t => some t
    | _ => none

/-- The delta texts emitted strictly after the n-th `message_start`
boundary (all delta texts when `n = 0`). -/
def deltaTextsAfterNthStart : Nat → List CliEvent → List String
  | 0, evs => allDeltaTexts evs
  | _ + 1, [] => []
  | n + 1, CliEvent.messageStart :: rest => deltaTextsAfterNthStart n rest
  | n + 1, _ :: rest => deltaTextsAfterNthStart (n + 1) rest

/-- The turn buffer accumulated by the smart-streaming listeners:
cleared at each `message_start`, extended by each nonempty delta. -/
def finalTurnBuffer (acc : List String) : List CliEvent → List String
  | [] => acc
  | CliEvent.messageStart :: rest => finalTurnBuffer [] rest
  | CliEvent.contentDelta t :: rest =>
    finalTurnBuffer (if t = "" then acc else acc ++ [t]) rest
  | _ :: rest => finalTurnBuffer acc rest

/-- Texts that survive the `if (text)` guard of the delta listener. -/
def nonEmptyTexts (ts : List String) : List String :=
  ts.filter fun t => !(t == "")

/-- Concatenation of a list of texts. -/
def concatTexts : List String → String
  | [] => ""
  | t :: rest => t ++ concatTexts rest

/- ─────────────── Non-streaming handler + orchestrator ─────────────── -/

/-- One JSON response sent on the non-streaming path: `res.json(...)`
(status 200) or `res.status(s).json({error: ...})`. -/
inductive HttpWrite
  | jsonOk (resp : OpenAIChatResponse)
  | jsonError (status : Nat) (message errType : String)
deriving Repr, DecidableEq

/-- State of `handleNonStreamingResponse` together with the session map
mutated by the orchestrator's `resume_failed` listener.  `responses`
records every response write, in order (`res.headersSent` is modelled as
`responses ≠ []`). -/
structure NonStreamingState where
  finalResult : Option CliResult
  sessions : SessionMap
  responses : List HttpWrite
deriving Repr, DecidableEq

/-- One event-handler step of `handleNonStreamingResponse` plus the
`resume_failed` listener registered by `handleChatCompletions`
(routes, lines 289-295): `result` stores the terminal payload, `error`
sends a 500, `close` sends the 200 built from the stored result or —
when none was received and no headers were sent — the 500
"exited without response" error, `resume_failed` deletes the stored
session of the request's conversation id. -/
def stepNonStreaming (conversationId : Option String) (requestId : String)
    (created : Nat) (st : NonStreamingState) : CliEvent → NonStreamingState
  | .result r => { st with finalResult := some r }
  | .errorEvent message =>
    { st with responses := st.responses ++ [.jsonError 500 message "server_error"] }
  | .closeEvent code =>
    match st.finalResult with
    | some r =>
      { st with responses :=
          st.responses ++ [.jsonOk (cliResultToOpenai r requestId created)] }
    | none =>
      if st.responses = [] then
        { st with responses :=
            [HttpWrite.jsonError 500
              ("Claude CLI exited with code " ++ toString code ++ " without response")
              "server_error"] }
      else st
  | .resumeFailed =>
    match conversationId with
    | some cid => { st with sessions := sessionsRemove st.sessions cid }
    | none => st
  | _ => st

/-- Run the non-streaming handler over a subprocess event list. -/
def runNonStreaming (conversationId : Option String) (requestId : String)
    (created : Nat) (sessions0 : SessionMap) (evs : List CliEvent) :
    NonStreamingState :=
  evs.foldl (stepNonStreaming conversationId requestId created)
    ⟨none, sessions0, []⟩

/-- The payload of the last `result` event of the list, if any. -/
def lastResultOf : List CliEvent → Option CliResult
  | [] => none
  | CliEvent.result r :: rest =>
    match lastResultOf rest with
    | some r' => some r'
    | none => some r
  | _ :: rest => lastResultOf rest

/-- The event is neither `error` nor `close`. -/
def notErrorClose : CliEvent → Bool
  | .errorEvent _ => false
  | .closeEvent _ => false
  | _ => true

/-- The event is none of `result`, `error`, `close`. -/
def isQuietEvent : CliEvent → Bool
  | .result _ => false
  | .errorEvent _ => false
  | .closeEvent _ => false
  | _ => true

/-- Modelled from the spec: the Subprocess Supervisor
(`dist/subprocess/manager.js`, not present under `src/`; only its
callers are) reports an invalid/unknown resume session by emitting the
`resume_failed` signal, and the current request then terminates without
a terminal `result` — the child exits and `close` fires with no
`result` having been produced. -/
def resumeFailureEvents (rest : List CliEvent) (code : Int) : List CliEvent :=
  CliEvent.resumeFailed :: (rest ++ [CliEvent.closeEvent code])

/- ─────────────────── Progress Reporter ─────────────────── -/

/-- `MIN_UPDATE_INTERVAL` (3s between Telegram edits). -/
def MIN_UPDATE_INTERVAL : Nat := 3000

/-- The `TOOL_LABELS` lookup table. -/
def TOOL_LABELS : String → Option String
  | "Bash" => some "執行命令"
  | "Read" => some "讀取檔案"
  | "Write" => some "寫入檔案"
  | "Edit" => some "編輯檔案"
  | "Grep" => some "搜尋內容"
  | "Glob" => some "搜尋檔案"
  | "WebSearch" => some "搜尋網頁"
  | "WebFetch" => some "讀取網頁"
  | "TodoRead" => some "讀取待辦"
  | "TodoWrite" => some "更新待辦"
  | _ => none

/-- `TOOL_LABELS[toolName] || toolName`. -/
def labelOf (toolName : String) : String :=
  (TOOL_LABELS toolName).getD toolName

/-- State of one `ProgressReporter` instance.  `chatId = none` models a
null chat id (`TELEGRAM_NOTIFY_ID || null` is never the empty string).
`throttleTimer` holds the absolute due time of the armed one-shot timer
(`setTimeout` for `MIN_UPDATE_INTERVAL - elapsed` ms arms it for
`lastUpdateAt + MIN_UPDATE_INTERVAL`).  `sendCount` counts sendMessage
API calls so that the environment oracle can supply each call's result
(Telegram message ids are positive; a zero id would be read as absent by
the JS truthiness test). -/
structure ProgressReporter where
  chatId : Option String
  messageId : Option Nat
  toolHistory : List String
  lastUpdateAt : Nat
  pendingLabel : Option String
  throttleTimer : Option Nat
  isDeleted : Bool
  sendCount : Nat
deriving Repr, DecidableEq

/-- The constructor `new ProgressReporter(chatId)`. -/
def mkReporter (chatId : Option String) : ProgressReporter :=
  ⟨chatId, none, [], 0, none, none, false, 0⟩

/-- One Telegram Bot API invocation made by the reporter, tagged with
the time it happens. -/
inductive TgCall
  | sendMessage (t : Nat) (chatId : Option String) (text : String)
  | editMessage (t : Nat) (chatId : Option String) (messageId : Nat) (text : String)
  | deleteMessage (t : Nat) (chatId : Option String) (messageId : Nat)
deriving Repr, DecidableEq

/-- Render one history line (`_buildText`'s map). -/
def progressLines : Bool → List String → List String
  | _, [] => []
  | isFirst, label :: rest =>
    (if isFirst then "⏳ " ++ label ++ "..." else "     " ++ label ++ "...") ::
      progressLines false rest

/-- `_buildText()`: the progress message text. -/
def buildText (hist : List String) : String :=
  if hist.isEmpty then "⏳ 處理中..."
  else String.intercalate "\n" (progressLines true hist)

/-- `_flush()` at wall-clock time `now`.  `env` maps the index of each
`sendMessage` call to the message id Telegram returns for it (`none` for
a failed call, in which case `messageId` stays unset). -/
def flushAt (env : Nat → Option Nat) (st : ProgressReporter) (now : Nat) :
    ProgressReporter × List TgCall :=
  if st.isDeleted then (st, [])
  else
    let st1 := { st with lastUpdateAt := now, pendingLabel := none }
    let text := buildText st1.toolHistory
    match st1.messageId with
    | none =>
      let r := env st1.sendCount
      ({ st1 with sendCount := st1.sendCount + 1, messageId := r },
       [.sendMessage now st1.chatId text])
    | some mid => (st1, [.editMessage now st1.chatId mid text])

/-- Push a label onto the history and keep at most the last 6 entries
(`toolHistory.push` followed by `slice(-6)` in `report`). -/
def pushTrim (hist : List String) (label : String) : List String :=
  let hist1 := hist ++ [label]
  if hist1.length > 6 then hist1.drop (hist1.length - 6) else hist1

/-- `report(toolName)` at wall-clock time `now`: drops the call when the
reporter is terminated or has no chat id, skips consecutive duplicate
labels, pushes the label and trims the history to its last 6 entries,
then either flushes immediately (interval elapsed) or records the label
as pending and arms the one-shot timer if none is armed. -/
def reportAt (env : Nat → Option Nat) (st : ProgressReporter) (now : Nat)
    (toolName : String) : ProgressReporter × List TgCall :=
  if st.isDeleted then (st, [])
  else if st.chatId.isNone then (st, [])
  else
    let label := labelOf toolName
    if st.toolHistory.getLast? = some label then (st, [])
    else
      let st1 := { st with toolHistory := pushTrim st.toolHistory label }
      let elapsed := now - st1.lastUpdateAt
      if MIN_UPDATE_INTERVAL ≤ elapsed then flushAt env st1 now
      else
        let st2 := { st1 with pendingLabel := some label }
        if st2.throttleTimer.isNone then
          ({ st2 with throttleTimer := some (now + (MIN_UPDATE_INTERVAL - elapsed)) }, [])
        else (st2, [])

/-- The armed timer's callback firing at its due time: clears the handle
and flushes unless the reporter has been terminated meanwhile. -/
def timerFire (env : Nat → Option Nat) (st : ProgressReporter)
    (dueTime : Nat) : ProgressReporter × List TgCall :=
  let st1 := { st with throttleTimer := none }
  if st1.isDeleted then (st1, []) else flushAt env st1 dueTime

/-- `cleanup()` at wall-clock time `now`: sets `isDeleted`, cancels the
armed timer, and deletes the outstanding Telegram message if both a
message id and a chat id are recorded.  Note that `messageId` is not
cleared. -/
def cleanupAt (st : ProgressReporter) (now : Nat) :
    ProgressReporter × List TgCall :=
  let st1 := { st with isDeleted := true, throttleTimer := none }
  match st.messageId, st.chatId with
  | some mid, some _ => (st1, [.deleteMessage now st.chatId mid])
  | _, _ => (st1, [])

/-- External stimuli to one reporter instance, tagged with their times. -/
inductive PInput
  | rep (t : Nat) (toolName : String)
  | clean (t : Nat)
deriving Repr, DecidableEq

/-- Time of a stimulus. -/
def inputTime : PInput → Nat
  | .rep t _ => t
  | .clean t => t

/-- Dispatch one stimulus. -/
def stepInput (env : Nat → Option Nat) (st : ProgressReporter) :
    PInput → ProgressReporter × List TgCall
  | .rep t name => reportAt env st t name
  | .clean t => cleanupAt st t

/-- Event-loop driver over time-sorted stimuli: before each stimulus, an
armed timer whose due time has been reached fires first (the event loop
runs the earlier-scheduled callback first). -/
def runInputs (env : Nat → Option Nat) (st : ProgressReporter) :
    List PInput → ProgressReporter × List TgCall
  | [] => (st, [])
  | inp :: rest =>
    let rA :=
      match st.throttleTimer with
      | some due =>
        if due ≤ inputTime inp then timerFire env st due else (st, [])
      | none => (st, [])
    let rB := stepInput env rA.1 inp
    let rC := runInputs env rB.1 rest
    (rC.1, rA.2 ++ rB.2 ++ rC.2)

/-- After the last stimulus, a still-armed timer eventually fires at its
due time. -/
def finalizeTimer (env : Nat → Option Nat) (st : ProgressReporter) :
    ProgressReporter × List TgCall :=
  match st.throttleTimer with
  | some due => timerFire env st due
  | none => (st, [])

/-- Complete run of one reporter: process all stimuli, then let any
armed timer fire. -/
def runProgress (env : Nat → Option Nat) (st : ProgressReporter)
    (inputs : List PInput) : ProgressReporter × List TgCall :=
  let r1 := runInputs env st inputs
  let r2 := finalizeTimer env r1.1
  (r2.1, r1.2 ++ r2.2)

/-- Stimulus times are nondecreasing. -/
def timesSorted : List PInput → Bool
  | a :: b :: rest => decide (inputTime a ≤ inputTime b) && timesSorted (b :: rest)
  | _ => true

/-- Time at which an API call happens. -/
def callTime : TgCall → Nat
  | .sendMessage t _ _ => t
  | .editMessage t _ _ _ => t
  | .deleteMessage t _ _ => t

/-- Send/edit calls are flushes of the progress message. -/
def isFlushCall : TgCall → Bool
  | .sendMessage _ _ _ => true
  | .editMessage _ _ _ _ => true
  | .deleteMessage _ _ _ => false

/-- A `deleteMessage` call. -/
def isDeleteCall : TgCall → Bool
  | .deleteMessage _ _ _ => true
  | _ => false

/-- Times of the flush calls of a trace, in order. -/
def flushTimes (calls : List TgCall) : List Nat :=
  (calls.filter isFlushCall).map callTime

/-- Number of `deleteMessage` calls in a trace. -/
def countDeletes (calls : List TgCall) : Nat :=
  (calls.filter isDeleteCall).length

/-- Number of `cleanup` stimuli. -/
def countCleanups (inputs : List PInput) : Nat :=
  (inputs.filter fun i => match i with
    | PInput.clean _ => true
    | _ => false).length

/-- Every time of the list is at least `base + MIN_UPDATE_INTERVAL`
after the previous one (and the first at least that long after
`base`). -/
def gapsFromOK (base : Nat) : List Nat → Bool
  | [] => true
  | t :: rest => decide (base + MIN_UPDATE_INTERVAL ≤ t) && gapsFromOK t rest

/-- Consecutive times of the list are at least `MIN_UPDATE_INTERVAL`
apart. -/
def gapsOK : List Nat → Bool
  | [] => true
  | t :: rest => gapsFromOK t rest

/-- Last element of the list, or `base` when empty. -/
def lastOr (base : Nat) : List Nat → Nat
  | [] => base
  | t :: rest => lastOr t rest

/-- The history never holds two consecutive identical labels. -/
def noConsecDup : List String → Bool
  | a :: b :: rest => !(a == b) && noConsecDup (b :: rest)
  | _ => true

/-- Reachable-state invariant of the throttle: an armed one-shot timer is
always due exactly `MIN_UPDATE_INTERVAL` after the last flush, and only a
live (non-terminated) reporter has one armed. -/
def StInv (st : ProgressReporter) : Prop :=
  ∀ due, st.throttleTimer = some due →
    due = st.lastUpdateAt + MIN_UPDATE_INTERVAL ∧ st.isDeleted = false

/- ─────────────────── Session Store lemmas ─────────────────── -/

theorem sessionsGet_set_self (m : SessionMap) (cid : String) (v : SessionMapping) :
    sessionsGet (sessionsSet m cid v) cid = some v := by
  induction m with
  | nil => simp [sessionsSet, sessionsGet]
  | cons p rest ih =>
    by_cases h : p.1 = cid
    · simp [sessionsSet, h, sessionsGet]
    · simp [sessionsSet, h, sessionsGet, ih]

theorem sessionsGet_set_ne (m : SessionMap) (cid c : String) (v : SessionMapping)
    (h : c ≠ cid) :
    sessionsGet (sessionsSet m cid v) c = sessionsGet m c := by
  have hcc : ¬ cid = c := fun hh => h hh.symm
  induction m with
  | nil => simp [sessionsSet, sessionsGet, hcc]
  | cons p rest ih =>
    obtain ⟨p1, p2⟩ := p
    by_cases hp : p1 = cid
    · subst hp
      simp [sessionsSet, sessionsGet, hcc]
    · by_cases hpc : p1 = c
      · simp [sessionsSet, sessionsGet, hp, hpc, h]
      · simp [sessionsSet, sessionsGet, hp, hpc, ih]

theorem sessionsGet_filter_none (m : SessionMap) (c : String)
    (q : String × SessionMapping → Bool) (h : sessionsGet m c = none) :
    sessionsGet (m.filter q) c = none := by
  induction m with
  | nil => simp [sessionsGet]
  | cons p rest ih =>
    rw [sessionsGet] at h
    by_cases hp : p.1 = c
    · simp [hp] at h
    · rw [if_neg hp] at h
      rw [List.filter_cons]
      by_cases hq : q p
      · simp [hq, sessionsGet, hp, ih h]
      · simp [hq, ih h]

theorem sessionsGet_filter_unique (m : SessionMap) (c : String)
    (q : String × SessionMapping → Bool) (v : SessionMapping)
    (hu : keysUnique m = true) (h : sessionsGet m c = some v) :
    sessionsGet (m.filter q) c = none ∨ sessionsGet (m.filter q) c = some v := by
  induction m with
  | nil => simp [sessionsGet] at h
  | cons p rest ih =>
    rw [keysUnique, Bool.and_eq_true] at hu
    rw [sessionsGet] at h
    rw [List.filter_cons]
    by_cases hp : p.1 = c
    · rw [if_pos hp] at h
      have hrest : sessionsGet rest c = none := by
        have := hu.1
        rw [hp] at this
        cases hh : sessionsGet rest c with
        | none => rfl
        | some w => rw [hh] at this; simp [Option.isNone] at this
      by_cases hq : q p
      · right
        simp only [hq, if_true]
        rw [sessionsGet, if_pos hp]
        injection h with h'
        rw [h']
      · left
        simp only [hq, Bool.false_eq_true, if_false]
        exact sessionsGet_filter_none rest c q hrest
    · rw [if_neg hp] at h
      by_cases hq : q p
      · simp only [hq, if_true]
        rw [sessionsGet, if_neg hp]
        exact ih hu.2 h
      · simp only [hq, Bool.false_eq_true, if_false]
        exact ih hu.2 h

theorem sessionsGet_remove_self (m : SessionMap) (cid : String) :
    sessionsGet (sessionsRemove m cid) cid = none := by
  induction m with
  | nil => simp [sessionsRemove, sessionsGet]
  | cons p rest ih =>
    rw [sessionsRemove, List.filter_cons]
    by_cases hp : p.1 = cid
    · simp [hp, sessionsRemove] at ih ⊢
      exact ih
    · have : (!(p.1 == cid)) = true := by simp [hp]
      rw [if_pos this, sessionsGet, if_neg hp]
      exact ih

theorem sessionsGet_remove_ne (m : SessionMap) (cid c : String) (h : cid ≠ c) :
    sessionsGet (sessionsRemove m c) cid = sessionsGet m cid := by
  induction m with
  | nil => simp [sessionsRemove]
  | cons p rest ih =>
    obtain ⟨p1, p2⟩ := p
    rw [sessionsRemove] at ih ⊢
    by_cases hp : p1 = c
    · subst hp
      have hne : ¬ p1 = cid := fun hh => h hh.symm
      simp [List.filter_cons, sessionsGet, ih, hne]
    · by_cases hpc : p1 = cid
      · simp [List.filter_cons, sessionsGet, hp, hpc, h]
      · simp [List.filter_cons, sessionsGet, hp, hpc, ih]

theorem keysUnique_set (m : SessionMap) (cid : String) (v : SessionMapping)
    (h : keysUnique m = true) : keysUnique (sessionsSet m cid v) = true := by
  induction m with
  | nil => simp [sessionsSet, keysUnique, sessionsGet, Option.isNone]
  | cons p rest ih =>
    rw [keysUnique, Bool.and_eq_true] at h
    rw [sessionsSet]
    by_cases hp : p.1 = cid
    · rw [if_pos hp, keysUnique, Bool.and_eq_true]
      constructor
      · rw [← hp]; exact h.1
      · exact h.2
    · rw [if_neg hp, keysUnique, Bool.and_eq_true]
      constructor
      · rw [sessionsGet_set_ne rest cid p.1 v hp]
        exact h.1
      · exact ih h.2

theorem keysUnique_filter (m : SessionMap)
    (q : String × SessionMapping → Bool) (h : keysUnique m = true) :
    keysUnique (m.filter q) = true := by
  induction m with
  | nil => simp [keysUnique]
  | cons p rest ih =>
    rw [keysUnique, Bool.and_eq_true] at h
    rw [List.filter_cons]
    by_cases hq : q p
    · rw [if_pos hq, keysUnique, Bool.and_eq_true]
      refine ⟨?_, ih h.2⟩
      have hn : sessionsGet rest p.1 = none := by
        have := h.1
        cases hh : sessionsGet rest p.1 with
        | none => rfl
        | some w => rw [hh] at this; simp [Option.isNone] at this
      rw [sessionsGet_filter_none rest p.1 q hn]
      rfl
    · simp only [hq, Bool.false_eq_true, if_false]
      exact ih h.2

theorem keysUnique_applyOp (m : SessionMap) (op : SessionOp)
    (h : keysUnique m = true) : keysUnique (applyOp m op) = true := by
  cases op with
  | goc cid model fresh now =>
    rw [applyOp, getOrCreate]
    cases hg : sessionsGet m cid with
    | some e => exact keysUnique_set m cid _ h
    | none => exact keysUnique_set m cid _ h
  | touch cid now =>
    rw [applyOp, resumeTouch]
    cases hg : sessionsGet m cid with
    | some e => exact keysUnique_set m cid _ h
    | none => exact h
  | del cid =>
    rw [applyOp, sessionsDeleteOp]
    exact keysUnique_filter m _ h
  | sweep now =>
    rw [applyOp, sessionsCleanup]
    exact keysUnique_filter m _ h

theorem presentThroughout_head (cid : String) (m : SessionMap)
    (l : List SessionOp) (h : presentThroughout cid m l = true) :
    (sessionsGet m cid).isSome = true := by
  cases l with
  | nil => exact h
  | cons op rest =>
    rw [presentThroughout, Bool.and_eq_true] at h
    exact h.1

theorem applyOp_preserves_sid (m : SessionMap) (op : SessionOp) (cid : String)
    (ex ex' : SessionMapping) (hu : keysUnique m = true)
    (h1 : sessionsGet m cid = some ex)
    (h2 : sessionsGet (applyOp m op) cid = some ex') :
    ex'.claudeSessionId = ex.claudeSessionId := by
  cases op with
  | goc cid' model fresh now =>
    rw [applyOp, getOrCreate] at h2
    cases hg : sessionsGet m cid' with
    | some e =>
      rw [hg] at h2
      by_cases hc : cid' = cid
      · subst hc
        rw [hg] at h1
        injection h1 with h1e
        rw [sessionsGet_set_self] at h2
        injection h2 with h2e
        rw [← h2e, ← h1e]
      · rw [sessionsGet_set_ne m cid' cid _ (fun hh => hc hh.symm), h1] at h2
        injection h2 with h2e
        rw [← h2e]
    | none =>
      rw [hg] at h2
      by_cases hc : cid' = cid
      · subst hc
        rw [hg] at h1
        exact absurd h1 (by simp)
      · rw [sessionsGet_set_ne m cid' cid _ (fun hh => hc hh.symm), h1] at h2
        injection h2 with h2e
        rw [← h2e]
  | touch cid' now =>
    rw [applyOp, resumeTouch] at h2
    cases hg : sessionsGet m cid' with
    | some e =>
      rw [hg] at h2
      by_cases hc : cid' = cid
      · subst hc
        rw [hg] at h1
        injection h1 with h1e
        rw [sessionsGet_set_self] at h2
        injection h2 with h2e
        rw [← h2e, ← h1e]
      · rw [sessionsGet_set_ne m cid' cid _ (fun hh => hc hh.symm), h1] at h2
        injection h2 with h2e
        rw [← h2e]
    | none =>
      rw [hg] at h2
      rw [h1] at h2
      injection h2 with h2e
      rw [← h2e]
  | del cid' =>
    rw [applyOp, sessionsDeleteOp] at h2
    by_cases hc : cid' = cid
    · subst hc
      rw [sessionsGet_remove_self] at h2
      exact absurd h2 (by simp)
    · rw [sessionsGet_remove_ne m cid cid' (fun hh => hc hh.symm), h1] at h2
      injection h2 with h2e
      rw [← h2e]
  | sweep now =>
    rw [applyOp, sessionsCleanup] at h2
    rcases sessionsGet_filter_unique m cid _ ex hu h1 with hnone | hsome
    · rw [hnone] at h2
      exact absurd h2 (by simp)
    · rw [hsome] at h2
      injection h2 with h2e
      rw [← h2e]

/-- C9: for every session mapping and every sequence of Session Store and
request-handler operations during which the conversation id stays mapped,
the provider session id (`claudeSessionId`) never changes: `getOrCreate`
on an existing entry, the resume path of the request handler, and
`cleanup` may update `lastUsedAt`, `model` or `messageCount` but leave
`claudeSessionId` equal to its value at creation. -/
theorem c9_provider_session_id_immutable (ops : List SessionOp)
    (m0 : SessionMap) (cid : String) (ex ex' : SessionMapping)
    (hu : keysUnique m0 = true)
    (h0 : sessionsGet m0 cid = some ex)
    (hp : presentThroughout cid m0 ops = true)
    (hend : sessionsGet (ops.foldl applyOp m0) cid = some ex') :
    ex'.claudeSessionId = ex.claudeSessionId := by
  induction ops generalizing m0 ex with
  | nil =>
    rw [List.foldl_nil] at hend
    rw [h0] at hend
    injection hend with he
    rw [← he]
  | cons op rest ih =>
    rw [presentThroughout, Bool.and_eq_true] at hp
    have hsome := presentThroughout_head cid (applyOp m0 op) rest hp.2
    rw [Option.isSome_iff_exists] at hsome
    obtain ⟨ex1, hex1⟩ := hsome
    have hstep := applyOp_preserves_sid m0 op cid ex ex1 hu h0 hex1
    have htail := ih (applyOp m0 op) ex1 (keysUnique_applyOp m0 op hu) hex1 hp.2
      (by rw [List.foldl_cons] at hend; exact hend)
    rw [htail, hstep]

/-- C9 witness: a concrete run (`getOrCreate` on an existing entry, the
resume path, a TTL sweep) leaves the provider session id intact. -/
theorem c9_witness :
    sessionsGet
        (([SessionOp.goc "c1" "opus" "sid-other" 50,
           SessionOp.touch "c1" 60,
           SessionOp.sweep 70]).foldl applyOp
          [("c1", ⟨"c1", "sid-1", 5, 5, "sonnet", none⟩)]) "c1"
      = some ⟨"c1", "sid-1", 5, 60, "opus", some 1⟩ ∧
    (⟨"c1", "sid-1", 5, 60, "opus", some 1⟩ :
        SessionMapping).claudeSessionId = "sid-1" :=
  ⟨by decide,
   c9_provider_session_id_immutable
     [SessionOp.goc "c1" "opus" "sid-other" 50,
      SessionOp.touch "c1" 60, SessionOp.sweep 70]
     [("c1", ⟨"c1", "sid-1", 5, 5, "sonnet", none⟩)] "c1"
     ⟨"c1", "sid-1", 5, 5, "sonnet", none⟩
     ⟨"c1", "sid-1", 5, 60, "opus", some 1⟩
     (by decide) rfl (by decide) (by decide)⟩

/-- C2: for a conversationId with no stored session, `getOrCreate`
creates a new provider session id, stores the mapping, and triggers a
persistence save; a second `getOrCreate` with the same conversationId
(at any later clock reading) returns the identical provider session id
without creating a new mapping, with `lastUsedAt` updated to a value no
smaller than before. -/
theorem c2_getOrCreate_create_then_reuse (m : SessionMap)
    (cid model1 model2 fresh1 fresh2 : String) (t1 t2 : Nat)
    (h0 : sessionsGet m cid = none) (ht : t1 ≤ t2) :
    (getOrCreate m cid model1 fresh1 t1).sid = fresh1 ∧
    (getOrCreate m cid model1 fresh1 t1).saved = true ∧
    sessionsGet (getOrCreate m cid model1 fresh1 t1).map cid
      = some ⟨cid, fresh1, t1, t1, model1, none⟩ ∧
    (getOrCreate (getOrCreate m cid model1 fresh1 t1).map cid model2 fresh2 t2).sid
      = (getOrCreate m cid model1 fresh1 t1).sid ∧
    (∀ c, (sessionsGet
        (getOrCreate (getOrCreate m cid model1 fresh1 t1).map cid model2 fresh2 t2).map
        c).isSome
      = (sessionsGet (getOrCreate m cid model1 fresh1 t1).map c).isSome) ∧
    ∃ ex2, sessionsGet
        (getOrCreate (getOrCreate m cid model1 fresh1 t1).map cid model2 fresh2 t2).map
        cid = some ex2 ∧
      ex2.claudeSessionId = fresh1 ∧ ex2.lastUsedAt = t2 ∧ t1 ≤ ex2.lastUsedAt := by
  have hr1map : (getOrCreate m cid model1 fresh1 t1).map
      = sessionsSet m cid ⟨cid, fresh1, t1, t1, model1, none⟩ := by
    rw [getOrCreate, h0]
  have hr1sid : (getOrCreate m cid model1 fresh1 t1).sid = fresh1 := by
    rw [getOrCreate, h0]
  have hr1saved : (getOrCreate m cid model1 fresh1 t1).saved = true := by
    rw [getOrCreate, h0]
  have hget1 : sessionsGet (getOrCreate m cid model1 fresh1 t1).map cid
      = some ⟨cid, fresh1, t1, t1, model1, none⟩ := by
    rw [hr1map]
    exact sessionsGet_set_self m cid _
  have hr2sid :
      (getOrCreate (getOrCreate m cid model1 fresh1 t1).map cid model2 fresh2 t2).sid
        = fresh1 := by
    rw [getOrCreate, hget1]
  have hr2map :
      (getOrCreate (getOrCreate m cid model1 fresh1 t1).map cid model2 fresh2 t2).map
        = sessionsSet (getOrCreate m cid model1 fresh1 t1).map cid
            ⟨cid, fresh1, t1, t2, model2, none⟩ := by
    rw [getOrCreate, hget1]
  refine ⟨hr1sid, hr1saved, hget1, by rw [hr2sid, hr1sid], ?_, ?_⟩
  · intro c
    by_cases hc : c = cid
    · subst hc
      rw [hr2map, sessionsGet_set_self, hget1]
      rfl
    · rw [hr2map, sessionsGet_set_ne _ cid c _ hc]
  · refine ⟨⟨cid, fresh1, t1, t2, model2, none⟩, ?_, rfl, rfl, ht⟩
    rw [hr2map]
    exact sessionsGet_set_self _ cid _

/-- C2 witness: concrete double call on an empty store. -/
theorem c2_witness :
    (getOrCreate (getOrCreate [] "c1" "sonnet" "sid-1" 5).map
        "c1" "sonnet" "sid-2" 9).sid = "sid-1" := by
  have h := c2_getOrCreate_create_then_reuse [] "c1" "sonnet" "sonnet"
    "sid-1" "sid-2" 5 9 rfl (by decide)
  exact h.2.2.2.1.trans h.1

/-- C3 counterexample: the existing-session path of `getOrCreate` is a
mutating operation (it rewrites `lastUsedAt` and `model`) but does not
trigger a save, refuting "every mutating operation of the Session Store
triggers a save". -/
theorem c3_counterexample :
    ¬ ((getOrCreate [("c1", ⟨"c1", "sid-1", 5, 5, "sonnet", none⟩)]
          "c1" "sonnet" "sid-2" 10).saved = true ∨
       (getOrCreate [("c1", ⟨"c1", "sid-1", 5, 5, "sonnet", none⟩)]
          "c1" "sonnet" "sid-2" 10).map
         = [("c1", ⟨"c1", "sid-1", 5, 5, "sonnet", none⟩)]) := by
  decide

/-- C3 as amended: the create path of `getOrCreate`, a `delete` that
removed an entry, a `cleanup` that removed at least one entry, and the
request handler's resume path trigger a save; the existing-session path
of `getOrCreate` rewrites `lastUsedAt`/`model` without triggering a save
of its own. -/
theorem c3_amended_saves (m : SessionMap) (cid model fresh : String)
    (now : Nat) :
    (sessionsGet m cid = none → (getOrCreate m cid model fresh now).saved = true) ∧
    (∀ ex, sessionsGet m cid = some ex →
      (getOrCreate m cid model fresh now).saved = false) ∧
    (sessionsDeleteOp m cid).saved = (sessionsDeleteOp m cid).deleted ∧
    (sessionsCleanup m now).saved = decide (0 < (sessionsCleanup m now).removed) ∧
    (resumeTouch m cid now).saved = (sessionsGet m cid).isSome := by
  refine ⟨?_, ?_, rfl, rfl, ?_⟩
  · intro h
    rw [getOrCreate, h]
  · intro ex h
    rw [getOrCreate, h]
  · rw [resumeTouch]
    cases h : sessionsGet m cid <;> simp

/-- C3 amended witness: concrete saves on the create path and no save on
the existing path. -/
theorem c3_amended_witness :
    (getOrCreate [] "c1" "sonnet" "sid-1" 5).saved = true ∧
    (getOrCreate [("c1", ⟨"c1", "sid-1", 5, 5, "sonnet", none⟩)]
        "c1" "opus" "sid-2" 10).saved = false :=
  ⟨(c3_amended_saves [] "c1" "sonnet" "sid-1" 5).1 rfl,
   (c3_amended_saves [("c1", ⟨"c1", "sid-1", 5, 5, "sonnet", none⟩)]
      "c1" "opus" "sid-2" 10).2.1 ⟨"c1", "sid-1", 5, 5, "sonnet", none⟩ rfl⟩

/- ─────────────────── Streaming handler lemmas ─────────────────── -/

theorem foldStreaming_append (rid : String) (created : Nat)
    (st : StreamingState) (l1 l2 : List CliEvent) :
    foldStreaming rid created st (l1 ++ l2)
      = ((foldStreaming rid created (foldStreaming rid created st l1).1 l2).1,
         (foldStreaming rid created st l1).2
           ++ (foldStreaming rid created (foldStreaming rid created st l1).1 l2).2) := by
  induction l1 generalizing st with
  | nil => simp [foldStreaming]
  | cons e rest ih =>
    simp only [List.cons_append, foldStreaming, List.append_eq]
    rw [ih]
    simp [List.append_assoc]

theorem foldStreaming_preTerminal (rid : String) (created : Nat)
    (evs : List CliEvent) (st : StreamingState)
    (h : ∀ e ∈ evs, isPreTerminal e = true) :
    (foldStreaming rid created st evs).2 = [] ∧
    (foldStreaming rid created st evs).1.writableEnded = st.writableEnded ∧
    (foldStreaming rid created st evs).1.isComplete = st.isComplete ∧
    (foldStreaming rid created st evs).1.turnBuffer
      = finalTurnBuffer st.turnBuffer evs := by
  induction evs generalizing st with
  | nil => exact ⟨rfl, rfl, rfl, rfl⟩
  | cons e rest ih =>
    have he := h e (List.mem_cons_self e rest)
    have hrest : ∀ x ∈ rest, isPreTerminal x = true :=
      fun x hx => h x (List.mem_cons_of_mem e hx)
    cases e with
    | messageStart =>
      simpa [foldStreaming, stepStreaming, finalTurnBuffer] using
        ih { st with turnCount := st.turnCount + 1, turnBuffer := [] } hrest
    | contentBlockStart bt bn =>
      simpa [foldStreaming, stepStreaming, finalTurnBuffer] using ih st hrest
    | contentDelta t =>
      by_cases ht : t = ""
      · subst ht
        simpa [foldStreaming, stepStreaming, finalTurnBuffer] using ih st hrest
      · simpa [foldStreaming, stepStreaming, finalTurnBuffer, ht] using
          ih { st with turnBuffer := st.turnBuffer ++ [t] } hrest
    | assistant mdl =>
      simpa [foldStreaming, stepStreaming, finalTurnBuffer] using
        ih { st with lastModel := mdl } hrest
    | result r => simp [isPreTerminal] at he
    | errorEvent msg => simp [isPreTerminal] at he
    | closeEvent code => simp [isPreTerminal] at he
    | resumeFailed =>
      simpa [foldStreaming, stepStreaming, finalTurnBuffer] using ih st hrest

theorem finalTurnBuffer_no_starts (evs : List CliEvent) (acc : List String)
    (h : countMessageStarts evs = 0) :
    finalTurnBuffer acc evs = acc ++ nonEmptyTexts (allDeltaTexts evs) := by
  induction evs generalizing acc with
  | nil => simp [finalTurnBuffer, allDeltaTexts, nonEmptyTexts]
  | cons e rest ih =>
    cases e with
    | messageStart => simp [countMessageStarts] at h
    | contentDelta t =>
      have hr : countMessageStarts rest = 0 := by
        simpa [countMessageStarts] using h
      by_cases ht : t = ""
      · subst ht
        simp [finalTurnBuffer, allDeltaTexts, nonEmptyTexts, ih _ hr]
      · simp [finalTurnBuffer, allDeltaTexts, nonEmptyTexts, ht, ih _ hr]
    | contentBlockStart bt bn =>
      have hr : countMessageStarts rest = 0 := by
        simpa [countMessageStarts] using h
      simp [finalTurnBuffer, allDeltaTexts, nonEmptyTexts, ih _ hr]
    | assistant mdl =>
      have hr : countMessageStarts rest = 0 := by
        simpa [countMessageStarts] using h
      simp [finalTurnBuffer, allDeltaTexts, nonEmptyTexts, ih _ hr]
    | result r =>
      have hr : countMessageStarts rest = 0 := by
        simpa [countMessageStarts] using h
      simp [finalTurnBuffer, allDeltaTexts, nonEmptyTexts, ih _ hr]
    | errorEvent msg =>
      have hr : countMessageStarts rest = 0 := by
        simpa [countMessageStarts] using h
      simp [finalTurnBuffer, allDeltaTexts, nonEmptyTexts, ih _ hr]
    | closeEvent code =>
      have hr : countMessageStarts rest = 0 := by
        simpa [countMessageStarts] using h
      simp [finalTurnBuffer, allDeltaTexts, nonEmptyTexts, ih _ hr]
    | resumeFailed =>
      have hr : countMessageStarts rest = 0 := by
        simpa [countMessageStarts] using h
      simp [finalTurnBuffer, allDeltaTexts, nonEmptyTexts, ih _ hr]

theorem finalTurnBuffer_acc_irrelevant (evs : List CliEvent)
    (h : countMessageStarts evs ≠ 0) (acc acc' : List String) :
    finalTurnBuffer acc evs = finalTurnBuffer acc' evs := by
  induction evs generalizing acc acc' with
  | nil => simp [countMessageStarts] at h
  | cons e rest ih =>
    cases e with
    | messageStart => simp [finalTurnBuffer]
    | contentDelta t =>
      have hr : countMessageStarts rest ≠ 0 := by
        simpa [countMessageStarts] using h
      simp only [finalTurnBuffer]
      exact ih hr _ _
    | contentBlockStart bt bn =>
      have hr : countMessageStarts rest ≠ 0 := by
        simpa [countMessageStarts] using h
      simp only [finalTurnBuffer]
      exact ih hr _ _
    | assistant mdl =>
      have hr : countMessageStarts rest ≠ 0 := by
        simpa [countMessageStarts] using h
      simp only [finalTurnBuffer]
      exact ih hr _ _
    | result r =>
      have hr : countMessageStarts rest ≠ 0 := by
        simpa [countMessageStarts] using h
      simp only [finalTurnBuffer]
      exact ih hr _ _
    | errorEvent msg =>
      have hr : countMessageStarts rest ≠ 0 := by
        simpa [countMessageStarts] using h
      simp only [finalTurnBuffer]
      exact ih hr _ _
    | closeEvent code =>
      have hr : countMessageStarts rest ≠ 0 := by
        simpa [countMessageStarts] using h
      simp only [finalTurnBuffer]
      exact ih hr _ _
    | resumeFailed =>
      have hr : countMessageStarts rest ≠ 0 := by
        simpa [countMessageStarts] using h
      simp only [finalTurnBuffer]
      exact ih hr _ _

theorem countStarts_cons (e : CliEvent) (rest : List CliEvent) :
    countMessageStarts (e :: rest)
      = countMessageStarts rest + (if e = CliEvent.messageStart then 1 else 0) := by
  cases e <;> simp [countMessageStarts, List.filter_cons]

theorem deltaAfterNth_zero (evs : List CliEvent) :
    deltaTextsAfterNthStart 0 evs = allDeltaTexts evs := by
  rw [deltaTextsAfterNthStart]

theorem finalTurnBuffer_eq_afterNth (evs : List CliEvent) (n : Nat)
    (h : countMessageStarts evs = n) :
    finalTurnBuffer [] evs
      = nonEmptyTexts (deltaTextsAfterNthStart n evs) := by
  induction evs generalizing n with
  | nil =>
    have hn : n = 0 := by simpa [countMessageStarts] using h.symm
    subst hn
    rfl
  | cons e rest ih =>
    rw [countStarts_cons] at h
    cases e with
    | messageStart =>
      rcases n with _ | m
      · exfalso
        simp at h
      · have hr : countMessageStarts rest = m := by simp at h; omega
        simp only [finalTurnBuffer, deltaTextsAfterNthStart]
        exact ih m hr
    | contentDelta t =>
      have hr : countMessageStarts rest = n := by simp at h; omega
      rcases n with _ | m
      · simp only [finalTurnBuffer, deltaTextsAfterNthStart]
        rw [finalTurnBuffer_no_starts rest _ hr]
        by_cases ht : t = ""
        · subst ht
          simp [allDeltaTexts, nonEmptyTexts]
        · simp [allDeltaTexts, nonEmptyTexts, ht]
      · simp only [finalTurnBuffer, deltaTextsAfterNthStart]
        rw [finalTurnBuffer_acc_irrelevant rest
          (by rw [hr]; exact Nat.succ_ne_zero m) _ []]
        exact ih (m + 1) hr
    | contentBlockStart bt bn =>
      have hr : countMessageStarts rest = n := by simp at h; omega
      rcases n with _ | m
      · simp only [finalTurnBuffer]
        rw [ih 0 hr]
        simp [deltaAfterNth_zero, allDeltaTexts]
      · simp only [finalTurnBuffer, deltaTextsAfterNthStart]
        exact ih (m + 1) hr
    | assistant mdl =>
      have hr : countMessageStarts rest = n := by simp at h; omega
      rcases n with _ | m
      · simp only [finalTurnBuffer]
        rw [ih 0 hr]
        simp [deltaAfterNth_zero, allDeltaTexts]
      · simp only [finalTurnBuffer, deltaTextsAfterNthStart]
        exact ih (m + 1) hr
    | result r =>
      have hr : countMessageStarts rest = n := by simp at h; omega
      rcases n with _ | m
      · simp only [finalTurnBuffer]
        rw [ih 0 hr]
        simp [deltaAfterNth_zero, allDeltaTexts]
      · simp only [finalTurnBuffer, deltaTextsAfterNthStart]
        exact ih (m + 1) hr
    | errorEvent msg =>
      have hr : countMessageStarts rest = n := by simp at h; omega
      rcases n with _ | m
      · simp only [finalTurnBuffer]
        rw [ih 0 hr]
        simp [deltaAfterNth_zero, allDeltaTexts]
      · simp only [finalTurnBuffer, deltaTextsAfterNthStart]
        exact ih (m + 1) hr
    | closeEvent code =>
      have hr : countMessageStarts rest = n := by simp at h; omega
      rcases n with _ | m
      · simp only [finalTurnBuffer]
        rw [ih 0 hr]
        simp [deltaAfterNth_zero, allDeltaTexts]
      · simp only [finalTurnBuffer, deltaTextsAfterNthStart]
        exact ih (m + 1) hr
    | resumeFailed =>
      have hr : countMessageStarts rest = n := by simp at h; omega
      rcases n with _ | m
      · simp only [finalTurnBuffer]
        rw [ih 0 hr]
        simp [deltaAfterNth_zero, allDeltaTexts]
      · simp only [finalTurnBuffer, deltaTextsAfterNthStart]
        exact ih (m + 1) hr

theorem chunkContentTexts_contentChunkWrites (rid model : String)
    (created : Nat) (b : Bool) (ts : List String) :
    chunkContentTexts (contentChunkWrites rid model created b ts) = ts := by
  induction ts generalizing b with
  | nil => rfl
  | cons t rest ih =>
    simp only [contentChunkWrites]
    simp only [chunkContentTexts] at ih ⊢
    simp [List.filterMap_cons, contentChunk, ih]

theorem chunkContentTexts_append (w1 w2 : List SSEWrite) :
    chunkContentTexts (w1 ++ w2) = chunkContentTexts w1 ++ chunkContentTexts w2 := by
  simp [chunkContentTexts, List.filterMap_append]

theorem string_empty_append (s : String) : "" ++ s = s := by
  cases s with
  | mk data => rfl

theorem concatTexts_nonEmpty (l : List String) :
    concatTexts (nonEmptyTexts l) = concatTexts l := by
  induction l with
  | nil => rfl
  | cons t rest ih =>
    simp only [nonEmptyTexts] at ih ⊢
    rw [List.filter_cons]
    by_cases ht : t = ""
    · subst ht
      simp [concatTexts, ih, string_empty_append]
    · have hb : (!(t == "")) = true := by simp [ht]
      simp [hb, concatTexts, ih]

theorem chunkContentTexts_comment_cons (s : String) (ws : List SSEWrite) :
    chunkContentTexts (SSEWrite.comment s :: ws) = chunkContentTexts ws := by
  simp [chunkContentTexts]

theorem foldStreaming_result_step (rid : String) (created : Nat)
    (st : StreamingState) (r : CliResult) (hend : st.writableEnded = false) :
    foldStreaming rid created st [CliEvent.result r]
      = ({ st with isComplete := true, turnBuffer := [], writableEnded := true },
         contentChunkWrites rid st.lastModel created true st.turnBuffer
           ++ [SSEWrite.dataWrite (createDoneChunk rid st.lastModel created),
               SSEWrite.doneMarker]) := by
  simp only [foldStreaming, stepStreaming]
  simp [hend]

theorem runStreaming_preTerminal_result (requestId : String) (created : Nat)
    (evs : List CliEvent) (r : CliResult)
    (h : ∀ e ∈ evs, isPreTerminal e = true) :
    (runStreaming requestId created (evs ++ [CliEvent.result r])).2
      = SSEWrite.comment ":ok" ::
        (contentChunkWrites requestId
            (foldStreaming requestId created initialStreamingState evs).1.lastModel
            created true (finalTurnBuffer [] evs)
          ++ [SSEWrite.dataWrite (createDoneChunk requestId
                (foldStreaming requestId created initialStreamingState evs).1.lastModel
                created),
              SSEWrite.doneMarker]) := by
  obtain ⟨hw, hend, hcomp, hbuf⟩ :=
    foldStreaming_preTerminal requestId created evs initialStreamingState h
  have hend' :
      (foldStreaming requestId created initialStreamingState evs).1.writableEnded
        = false := by
    rw [hend]
    rfl
  have hstep := foldStreaming_result_step requestId created
    (foldStreaming requestId created initialStreamingState evs).1 r hend'
  have happ := foldStreaming_append requestId created initialStreamingState evs
    [CliEvent.result r]
  simp only [runStreaming]
  rw [happ, hstep, hw]
  have hbuf' :
      (foldStreaming requestId created initialStreamingState evs).1.turnBuffer
        = finalTurnBuffer [] evs := hbuf
  rw [hbuf']
  simp

/-- C1: for every finite stream-event sequence with N `message_start`
boundaries followed by a terminal `result`, the client-visible SSE output
contains exactly the delta texts emitted strictly after the Nth
`message_start` (those that survive the nonempty-text guard), in order,
and its concatenation is exactly the concatenation of those delta texts;
every delta emitted before the Nth boundary is discarded and never
written to the client. -/
theorem c1_smart_streaming_final_turn (requestId : String) (created : Nat)
    (evs : List CliEvent) (r : CliResult)
    (h : ∀ e ∈ evs, isPreTerminal e = true) :
    chunkContentTexts
        (runStreaming requestId created (evs ++ [CliEvent.result r])).2
      = nonEmptyTexts (deltaTextsAfterNthStart (countMessageStarts evs) evs) ∧
    concatTexts (chunkContentTexts
        (runStreaming requestId created (evs ++ [CliEvent.result r])).2)
      = concatTexts (deltaTextsAfterNthStart (countMessageStarts evs) evs) := by
  have h1 : chunkContentTexts
      (runStreaming requestId created (evs ++ [CliEvent.result r])).2
      = nonEmptyTexts (deltaTextsAfterNthStart (countMessageStarts evs) evs) := by
    rw [runStreaming_preTerminal_result requestId created evs r h]
    rw [chunkContentTexts_comment_cons, chunkContentTexts_append,
      chunkContentTexts_contentChunkWrites]
    have hdone : chunkContentTexts
        [SSEWrite.dataWrite (createDoneChunk requestId
          (foldStreaming requestId created initialStreamingState evs).1.lastModel
          created), SSEWrite.doneMarker] = [] := rfl
    rw [hdone, List.append_nil]
    exact finalTurnBuffer_eq_afterNth evs _ rfl
  exact ⟨h1, by rw [h1, concatTexts_nonEmpty]⟩

/-- C1 witness: the spec scenario — events
`[message_start, delta "A", message_start, delta "B", result]` yield
exactly the text "B" to the client. -/
theorem c1_witness :
    chunkContentTexts (runStreaming "req" 0
        ([CliEvent.messageStart, CliEvent.contentDelta "A",
          CliEvent.messageStart, CliEvent.contentDelta "B"]
          ++ [CliEvent.result ⟨"done", none, none⟩])).2 = ["B"] := by
  have h := c1_smart_streaming_final_turn "req" 0
    [CliEvent.messageStart, CliEvent.contentDelta "A",
     CliEvent.messageStart, CliEvent.contentDelta "B"]
    ⟨"done", none, none⟩ (by decide)
  rw [h.1]
  rfl

/-- C7: if the terminal `result` arrives while the live turn buffer is
empty (zero deltas since the last `message_start`), the streaming client
receives a non-error response with empty assistant content: exactly the
`:ok` comment, one chunk with empty delta and `finish_reason` "stop",
and the `[DONE]` marker. -/
theorem c7_empty_final_turn (requestId : String) (created : Nat)
    (evs : List CliEvent) (r : CliResult)
    (h : ∀ e ∈ evs, isPreTerminal e = true)
    (hzero : deltaTextsAfterNthStart (countMessageStarts evs) evs = []) :
    ∃ m, (runStreaming requestId created (evs ++ [CliEvent.result r])).2
        = [SSEWrite.comment ":ok",
           SSEWrite.dataWrite (createDoneChunk requestId m created),
           SSEWrite.doneMarker] ∧
      (createDoneChunk requestId m created).choices
        = [⟨0, none, none, some "stop"⟩] ∧
      chunkContentTexts
        (runStreaming requestId created (evs ++ [CliEvent.result r])).2 = [] := by
  have hbufe : finalTurnBuffer [] evs = [] := by
    rw [finalTurnBuffer_eq_afterNth evs _ rfl, hzero]
    rfl
  have hout := runStreaming_preTerminal_result requestId created evs r h
  rw [hbufe] at hout
  refine ⟨(foldStreaming requestId created initialStreamingState evs).1.lastModel,
    ?_, rfl, ?_⟩
  · rw [hout]
    rfl
  · rw [hout]
    rfl

/-- C7 witness: a `result` right after a fresh `message_start` yields an
empty-content, non-error stream. -/
theorem c7_witness :
    chunkContentTexts (runStreaming "req" 0
        ([CliEvent.messageStart] ++ [CliEvent.result ⟨"", none, none⟩])).2 = [] := by
  obtain ⟨m, h1, h2, h3⟩ := c7_empty_final_turn "req" 0 [CliEvent.messageStart]
    ⟨"", none, none⟩ (by decide) (by decide)
  exact h3

/- ─────────────── Non-streaming handler lemmas ─────────────── -/

theorem foldNonStreaming_no_error_close (cid : Option String) (rid : String)
    (created : Nat) (evs : List CliEvent) (st : NonStreamingState)
    (h : ∀ e ∈ evs, notErrorClose e = true) :
    (evs.foldl (stepNonStreaming cid rid created) st).responses = st.responses ∧
    (evs.foldl (stepNonStreaming cid rid created) st).finalResult
      = (match lastResultOf evs with
         | some r => some r
         | none => st.finalResult) := by
  induction evs generalizing st with
  | nil => exact ⟨rfl, rfl⟩
  | cons e rest ih =>
    have he := h e (List.mem_cons_self e rest)
    have hrest : ∀ x ∈ rest, notErrorClose x = true :=
      fun x hx => h x (List.mem_cons_of_mem e hx)
    cases e with
    | messageStart =>
      simpa [List.foldl_cons, stepNonStreaming, lastResultOf] using ih st hrest
    | contentBlockStart bt bn =>
      simpa [List.foldl_cons, stepNonStreaming, lastResultOf] using ih st hrest
    | contentDelta t =>
      simpa [List.foldl_cons, stepNonStreaming, lastResultOf] using ih st hrest
    | assistant mdl =>
      simpa [List.foldl_cons, stepNonStreaming, lastResultOf] using ih st hrest
    | result r =>
      have := ih { st with finalResult := some r } hrest
      simp only [List.foldl_cons, stepNonStreaming, lastResultOf]
      refine ⟨this.1, ?_⟩
      rw [this.2]
      cases lastResultOf rest <;> rfl
    | errorEvent msg => simp [notErrorClose] at he
    | closeEvent code => simp [notErrorClose] at he
    | resumeFailed =>
      have := ih (stepNonStreaming cid rid created st CliEvent.resumeFailed) hrest
      simp only [List.foldl_cons, lastResultOf]
      refine ⟨?_, ?_⟩
      · rw [this.1]
        cases cid <;> rfl
      · rw [this.2]
        cases cid <;> cases lastResultOf rest <;> rfl

theorem foldNonStreaming_quiet (cid : Option String) (rid : String)
    (created : Nat) (evs : List CliEvent) (st : NonStreamingState)
    (h : ∀ e ∈ evs, isQuietEvent e = true) :
    (evs.foldl (stepNonStreaming cid rid created) st).responses = st.responses ∧
    (evs.foldl (stepNonStreaming cid rid created) st).finalResult = st.finalResult ∧
    ∀ cidq, sessionsGet st.sessions cidq = none →
      sessionsGet (evs.foldl (stepNonStreaming cid rid created) st).sessions cidq
        = none := by
  induction evs generalizing st with
  | nil => exact ⟨rfl, rfl, fun _ hq => hq⟩
  | cons e rest ih =>
    have he := h e (List.mem_cons_self e rest)
    have hrest : ∀ x ∈ rest, isQuietEvent x = true :=
      fun x hx => h x (List.mem_cons_of_mem e hx)
    cases e with
    | messageStart => simpa [List.foldl_cons, stepNonStreaming] using ih st hrest
    | contentBlockStart bt bn =>
      simpa [List.foldl_cons, stepNonStreaming] using ih st hrest
    | contentDelta t => simpa [List.foldl_cons, stepNonStreaming] using ih st hrest
    | assistant mdl => simpa [List.foldl_cons, stepNonStreaming] using ih st hrest
    | result r => simp [isQuietEvent] at he
    | errorEvent msg => simp [isQuietEvent] at he
    | closeEvent code => simp [isQuietEvent] at he
    | resumeFailed =>
      have hnext := ih (stepNonStreaming cid rid created st CliEvent.resumeFailed) hrest
      simp only [List.foldl_cons]
      refine ⟨?_, ?_, ?_⟩
      · rw [hnext.1]
        cases cid <;> rfl
      · rw [hnext.2.1]
        cases cid <;> rfl
      · intro cidq hq
        refine hnext.2.2 cidq ?_
        cases cid with
        | none => exact hq
        | some c =>
          show sessionsGet (sessionsRemove st.sessions c) cidq = none
          exact sessionsGet_filter_none st.sessions cidq _ hq

/-- C10: in the non-streaming handler, when the subprocess closes after a
terminal `result` was received, the client gets the 200 chat-completion
response built from that result regardless of the exit code; the 500
"exited without response" error is sent exactly when the close arrives
with no terminal `result` received. -/
theorem c10_close_result_vs_error (cid : Option String) (rid : String)
    (created : Nat) (s0 : SessionMap) (evs : List CliEvent) (code : Int)
    (h : ∀ e ∈ evs, notErrorClose e = true) :
    (∀ r, lastResultOf evs = some r →
      (runNonStreaming cid rid created s0
          (evs ++ [CliEvent.closeEvent code])).responses
        = [HttpWrite.jsonOk (cliResultToOpenai r rid created)]) ∧
    (lastResultOf evs = none →
      (runNonStreaming cid rid created s0
          (evs ++ [CliEvent.closeEvent code])).responses
        = [HttpWrite.jsonError 500
            ("Claude CLI exited with code " ++ toString code ++ " without response")
            "server_error"]) := by
  have hfold := foldNonStreaming_no_error_close cid rid created evs
    ⟨none, s0, []⟩ h
  constructor
  · intro r hr
    rw [runNonStreaming, List.foldl_append, List.foldl_cons, List.foldl_nil]
    have hfr : (evs.foldl (stepNonStreaming cid rid created)
        ⟨none, s0, []⟩).finalResult = some r := by
      rw [hfold.2, hr]
    simp only [stepNonStreaming]
    rw [hfr]
    simp [hfold.1]
  · intro hr
    rw [runNonStreaming, List.foldl_append, List.foldl_cons, List.foldl_nil]
    have hfr : (evs.foldl (stepNonStreaming cid rid created)
        ⟨none, s0, []⟩).finalResult = none := by
      rw [hfold.2, hr]
    simp only [stepNonStreaming]
    rw [hfr]
    simp [hfold.1]

/-- C10 witness: a `result` followed by an abnormal exit (code 1) still
yields the 200 response built by `cliResultToOpenai`. -/
theorem c10_witness :
    (runNonStreaming none "req" 0 []
        ([CliEvent.result ⟨"hello", some ["claude-sonnet-4-5"], some ⟨some 3, some 5⟩⟩]
          ++ [CliEvent.closeEvent 1])).responses
      = [HttpWrite.jsonOk (cliResultToOpenai
          ⟨"hello", some ["claude-sonnet-4-5"], some ⟨some 3, some 5⟩⟩ "req" 0)] :=
  (c10_close_result_vs_error none "req" 0 []
      [CliEvent.result ⟨"hello", some ["claude-sonnet-4-5"], some ⟨some 3, some 5⟩⟩]
      1 (by decide)).1
    ⟨"hello", some ["claude-sonnet-4-5"], some ⟨some 3, some 5⟩⟩ rfl

/-- C8: when the subprocess signals `resume_failed` for a request that
resumed a stored session, the stored mapping of that conversationId is
deleted — so the next `getOrCreate` for it starts a fresh session — while
the current request is not retried and terminates with the 500 error
surfaced to the caller. -/
theorem c8_resume_failed_invalidates (cid rid : String) (created : Nat)
    (s0 : SessionMap) (rest : List CliEvent) (code : Int) (ex : SessionMapping)
    (_hstore : sessionsGet s0 cid = some ex)
    (hrest : ∀ e ∈ rest, isQuietEvent e = true) :
    sessionsGet (runNonStreaming (some cid) rid created s0
        (resumeFailureEvents rest code)).sessions cid = none ∧
    (runNonStreaming (some cid) rid created s0
        (resumeFailureEvents rest code)).responses
      = [HttpWrite.jsonError 500
          ("Claude CLI exited with code " ++ toString code ++ " without response")
          "server_error"] ∧
    ∀ model fresh now,
      (getOrCreate (runNonStreaming (some cid) rid created s0
          (resumeFailureEvents rest code)).sessions cid model fresh now).sid
        = fresh ∧
      (getOrCreate (runNonStreaming (some cid) rid created s0
          (resumeFailureEvents rest code)).sessions cid model fresh now).saved
        = true := by
  have hq := foldNonStreaming_quiet (some cid) rid created rest
    ⟨none, sessionsRemove s0 cid, []⟩ hrest
  have hnone1 : sessionsGet (sessionsRemove s0 cid) cid = none :=
    sessionsGet_remove_self s0 cid
  have hmidnone := hq.2.2 cid hnone1
  have hrun : runNonStreaming (some cid) rid created s0 (resumeFailureEvents rest code)
      = stepNonStreaming (some cid) rid created
          (rest.foldl (stepNonStreaming (some cid) rid created)
            ⟨none, sessionsRemove s0 cid, []⟩)
          (CliEvent.closeEvent code) := by
    rw [runNonStreaming, resumeFailureEvents, List.foldl_cons, List.foldl_append,
      List.foldl_cons, List.foldl_nil]
    rfl
  have hclose : stepNonStreaming (some cid) rid created
      (rest.foldl (stepNonStreaming (some cid) rid created)
        ⟨none, sessionsRemove s0 cid, []⟩)
      (CliEvent.closeEvent code)
      = { rest.foldl (stepNonStreaming (some cid) rid created)
            ⟨none, sessionsRemove s0 cid, []⟩ with
          responses := [HttpWrite.jsonError 500
            ("Claude CLI exited with code " ++ toString code ++ " without response")
            "server_error"] } := by
    simp only [stepNonStreaming]
    rw [hq.2.1]
    simp [hq.1]
  have hget : sessionsGet (runNonStreaming (some cid) rid created s0
      (resumeFailureEvents rest code)).sessions cid = none := by
    rw [hrun, hclose]
    exact hmidnone
  refine ⟨hget, ?_, ?_⟩
  · rw [hrun, hclose]
  · intro model fresh now
    constructor
    · rw [getOrCreate, hget]
    · rw [getOrCreate, hget]

/-- C8 witness: a stored session for "c1" is gone after a
`resume_failed` run, and the request got the 500 error. -/
theorem c8_witness :
    sessionsGet (runNonStreaming (some "c1") "req" 0
        [("c1", ⟨"c1", "sid-1", 5, 5, "sonnet", none⟩)]
        (resumeFailureEvents [] 1)).sessions "c1" = none :=
  (c8_resume_failed_invalidates "c1" "req" 0
      [("c1", ⟨"c1", "sid-1", 5, 5, "sonnet", none⟩)] [] 1
      ⟨"c1", "sid-1", 5, 5, "sonnet", none⟩ rfl (by decide)).1

/- ─────────────── Progress Reporter: history lemmas ─────────────── -/


theorem noConsecDup_append_single (hist : List String) (label : String)
    (h : noConsecDup hist = true) (hl : hist.getLast? ≠ some label) :
    noConsecDup (hist ++ [label]) = true := by
  induction hist with
  | nil => rfl
  | cons a rest ih =>
    cases rest with
    | nil =>
      have ha : a ≠ label := by
        intro hh
        exact hl (by rw [List.getLast?_singleton, hh])
      simp [noConsecDup, ha]
    | cons b rest2 =>
      rw [noConsecDup, Bool.and_eq_true] at h
      have hl2 : (b :: rest2).getLast? ≠ some label := by
        rw [List.getLast?_cons_cons] at hl
        exact hl
      have hr := ih h.2 hl2
      simp only [List.cons_append] at hr ⊢
      rw [noConsecDup, Bool.and_eq_true]
      exact ⟨h.1, hr⟩

theorem noConsecDup_drop (n : Nat) (l : List String)
    (h : noConsecDup l = true) :
    noConsecDup (l.drop n) = true := by
  induction n generalizing l with
  | zero => simpa using h
  | succ k ih =>
    cases l with
    | nil => rfl
    | cons a rest =>
      rw [List.drop_succ_cons]
      refine ih rest ?_
      cases rest with
      | nil => rfl
      | cons b r2 =>
        rw [noConsecDup, Bool.and_eq_true] at h
        exact h.2

theorem pushTrim_inv (hist : List String) (label : String)
    (h1 : hist.length ≤ 6) (h2 : noConsecDup hist = true)
    (hl : hist.getLast? ≠ some label) :
    (pushTrim hist label).length ≤ 6 ∧
    noConsecDup (pushTrim hist label) = true := by
  have hap := noConsecDup_append_single hist label h2 hl
  rw [pushTrim]
  by_cases hlen : (hist ++ [label]).length > 6
  · rw [if_pos hlen]
    refine ⟨?_, noConsecDup_drop _ _ hap⟩
    rw [List.length_drop]
    omega
  · rw [if_neg hlen]
    refine ⟨?_, hap⟩
    simp only [List.length_append, List.length_singleton] at hlen ⊢
    omega

/- ─────────── Progress Reporter: branch equations ─────────── -/

theorem flushAt_deleted (env : Nat → Option Nat) (st : ProgressReporter)
    (now : Nat) (h : st.isDeleted = true) :
    flushAt env st now = (st, []) := by
  obtain ⟨cId, mId, hist, lu, pl, tt, del, sc⟩ := st
  simp only at h
  subst h
  simp [flushAt]

theorem flushAt_send (env : Nat → Option Nat) (st : ProgressReporter)
    (now : Nat) (h : st.isDeleted = false) (hm : st.messageId = none) :
    flushAt env st now
      = ({ st with
           lastUpdateAt := now, pendingLabel := none,
           sendCount := st.sendCount + 1, messageId := env st.sendCount },
         [TgCall.sendMessage now st.chatId (buildText st.toolHistory)]) := by
  obtain ⟨cId, mId, hist, lu, pl, tt, del, sc⟩ := st
  simp only at h hm
  subst h
  subst hm
  simp [flushAt]

theorem flushAt_edit (env : Nat → Option Nat) (st : ProgressReporter)
    (now mid : Nat) (h : st.isDeleted = false) (hm : st.messageId = some mid) :
    flushAt env st now
      = ({ st with lastUpdateAt := now, pendingLabel := none },
         [TgCall.editMessage now st.chatId mid (buildText st.toolHistory)]) := by
  obtain ⟨cId, mId, hist, lu, pl, tt, del, sc⟩ := st
  simp only at h hm
  subst h
  subst hm
  simp [flushAt]

theorem reportAt_deleted (env : Nat → Option Nat) (st : ProgressReporter)
    (now : Nat) (name : String) (h : st.isDeleted = true) :
    reportAt env st now name = (st, []) := by
  obtain ⟨cId, mId, hist, lu, pl, tt, del, sc⟩ := st
  simp only at h
  subst h
  simp [reportAt]

theorem reportAt_noChat (env : Nat → Option Nat) (st : ProgressReporter)
    (now : Nat) (name : String) (h : st.chatId = none) :
    reportAt env st now name = (st, []) := by
  obtain ⟨cId, mId, hist, lu, pl, tt, del, sc⟩ := st
  simp only at h
  subst h
  cases del <;> simp [reportAt]

theorem reportAt_dup (env : Nat → Option Nat) (st : ProgressReporter)
    (now : Nat) (name : String) (hdel : st.isDeleted = false)
    (hc : st.chatId.isNone = false)
    (hlast : st.toolHistory.getLast? = some (labelOf name)) :
    reportAt env st now name = (st, []) := by
  obtain ⟨cId, mId, hist, lu, pl, tt, del, sc⟩ := st
  simp only at hdel hc hlast
  subst hdel
  simp [reportAt, hc, hlast]

theorem reportAt_flush (env : Nat → Option Nat) (st : ProgressReporter)
    (now : Nat) (name : String) (hdel : st.isDeleted = false)
    (hc : st.chatId.isNone = false)
    (hlast : st.toolHistory.getLast? ≠ some (labelOf name))
    (helapsed : MIN_UPDATE_INTERVAL ≤ now - st.lastUpdateAt) :
    reportAt env st now name
      = flushAt env
          { st with toolHistory := pushTrim st.toolHistory (labelOf name) } now := by
  obtain ⟨cId, mId, hist, lu, pl, tt, del, sc⟩ := st
  simp only at hdel hc hlast helapsed
  subst hdel
  simp [reportAt, hc, hlast, helapsed]

theorem reportAt_arm (env : Nat → Option Nat) (st : ProgressReporter)
    (now : Nat) (name : String) (hdel : st.isDeleted = false)
    (hc : st.chatId.isNone = false)
    (hlast : st.toolHistory.getLast? ≠ some (labelOf name))
    (helapsed : ¬ MIN_UPDATE_INTERVAL ≤ now - st.lastUpdateAt)
    (htt : st.throttleTimer = none) :
    reportAt env st now name
      = ({ st with
           toolHistory := pushTrim st.toolHistory (labelOf name),
           pendingLabel := some (labelOf name),
           throttleTimer :=
             some (now + (MIN_UPDATE_INTERVAL - (now - st.lastUpdateAt))) },
         []) := by
  obtain ⟨cId, mId, hist, lu, pl, tt, del, sc⟩ := st
  simp only at hdel hc hlast helapsed htt
  subst hdel
  subst htt
  simp [reportAt, hc, hlast, helapsed]

theorem reportAt_pending (env : Nat → Option Nat) (st : ProgressReporter)
    (now : Nat) (name : String) (d : Nat) (hdel : st.isDeleted = false)
    (hc : st.chatId.isNone = false)
    (hlast : st.toolHistory.getLast? ≠ some (labelOf name))
    (helapsed : ¬ MIN_UPDATE_INTERVAL ≤ now - st.lastUpdateAt)
    (htt : st.throttleTimer = some d) :
    reportAt env st now name
      = ({ st with
           toolHistory := pushTrim st.toolHistory (labelOf name),
           pendingLabel := some (labelOf name) },
         []) := by
  obtain ⟨cId, mId, hist, lu, pl, tt, del, sc⟩ := st
  simp only at hdel hc hlast helapsed htt
  subst hdel
  subst htt
  simp [reportAt, hc, hlast, helapsed]

theorem timerFire_deleted (env : Nat → Option Nat) (st : ProgressReporter)
    (due : Nat) (h : st.isDeleted = true) :
    timerFire env st due = ({ st with throttleTimer := none }, []) := by
  obtain ⟨cId, mId, hist, lu, pl, tt, del, sc⟩ := st
  simp only at h
  subst h
  simp [timerFire, flushAt]

theorem timerFire_not_deleted (env : Nat → Option Nat) (st : ProgressReporter)
    (due : Nat) (h : st.isDeleted = false) :
    timerFire env st due = flushAt env { st with throttleTimer := none } due := by
  obtain ⟨cId, mId, hist, lu, pl, tt, del, sc⟩ := st
  simp only at h
  subst h
  simp [timerFire]

theorem cleanupAt_delete (st : ProgressReporter) (now mid : Nat) (c : String)
    (hm : st.messageId = some mid) (hc : st.chatId = some c) :
    cleanupAt st now
      = ({ st with isDeleted := true, throttleTimer := none },
         [TgCall.deleteMessage now st.chatId mid]) := by
  obtain ⟨cId, mId, hist, lu, pl, tt, del, sc⟩ := st
  simp only at hm hc
  subst hm
  subst hc
  simp [cleanupAt]

theorem cleanupAt_noMessage (st : ProgressReporter) (now : Nat)
    (hm : st.messageId = none) :
    cleanupAt st now = ({ st with isDeleted := true, throttleTimer := none }, []) := by
  obtain ⟨cId, mId, hist, lu, pl, tt, del, sc⟩ := st
  simp only at hm
  subst hm
  simp [cleanupAt]

theorem cleanupAt_noChat (st : ProgressReporter) (now : Nat)
    (hc : st.chatId = none) :
    cleanupAt st now = ({ st with isDeleted := true, throttleTimer := none }, []) := by
  obtain ⟨cId, mId, hist, lu, pl, tt, del, sc⟩ := st
  simp only at hc
  subst hc
  cases mId <;> simp [cleanupAt]

theorem flushAt_toolHistory (env : Nat → Option Nat) (st : ProgressReporter)
    (now : Nat) : (flushAt env st now).1.toolHistory = st.toolHistory := by
  cases hdel : st.isDeleted with
  | true => rw [flushAt_deleted env st now hdel]
  | false =>
    cases hm : st.messageId with
    | none => rw [flushAt_send env st now hdel hm]
    | some mid => rw [flushAt_edit env st now mid hdel hm]

theorem timerFire_toolHistory (env : Nat → Option Nat) (st : ProgressReporter)
    (due : Nat) : (timerFire env st due).1.toolHistory = st.toolHistory := by
  cases hdel : st.isDeleted with
  | true => rw [timerFire_deleted env st due hdel]
  | false => rw [timerFire_not_deleted env st due hdel, flushAt_toolHistory]

theorem cleanupAt_toolHistory (st : ProgressReporter) (now : Nat) :
    (cleanupAt st now).1.toolHistory = st.toolHistory := by
  cases hm : st.messageId with
  | none => rw [cleanupAt_noMessage st now hm]
  | some mid =>
    cases hc : st.chatId with
    | none => rw [cleanupAt_noChat st now hc]
    | some c => rw [cleanupAt_delete st now mid c hm hc]

theorem reportAt_history_inv (env : Nat → Option Nat) (st : ProgressReporter)
    (now : Nat) (name : String)
    (h1 : st.toolHistory.length ≤ 6) (h2 : noConsecDup st.toolHistory = true) :
    (reportAt env st now name).1.toolHistory.length ≤ 6 ∧
    noConsecDup (reportAt env st now name).1.toolHistory = true := by
  cases hdel : st.isDeleted with
  | true =>
    rw [reportAt_deleted env st now name hdel]
    exact ⟨h1, h2⟩
  | false =>
    cases hc : st.chatId with
    | none =>
      rw [reportAt_noChat env st now name hc]
      exact ⟨h1, h2⟩
    | some c =>
      have hcn : st.chatId.isNone = false := by rw [hc]; rfl
      by_cases hlast : st.toolHistory.getLast? = some (labelOf name)
      · rw [reportAt_dup env st now name hdel hcn hlast]
        exact ⟨h1, h2⟩
      · have hpt := pushTrim_inv st.toolHistory (labelOf name) h1 h2 hlast
        by_cases helapsed : MIN_UPDATE_INTERVAL ≤ now - st.lastUpdateAt
        · rw [reportAt_flush env st now name hdel hcn hlast helapsed,
            flushAt_toolHistory]
          exact hpt
        · cases htt : st.throttleTimer with
          | none =>
            rw [reportAt_arm env st now name hdel hcn hlast helapsed htt]
            exact hpt
          | some d =>
            rw [reportAt_pending env st now name d hdel hcn hlast helapsed htt]
            exact hpt

theorem stepInput_history_inv (env : Nat → Option Nat) (st : ProgressReporter)
    (inp : PInput)
    (h1 : st.toolHistory.length ≤ 6) (h2 : noConsecDup st.toolHistory = true) :
    (stepInput env st inp).1.toolHistory.length ≤ 6 ∧
    noConsecDup (stepInput env st inp).1.toolHistory = true := by
  cases inp with
  | rep t name => exact reportAt_history_inv env st t name h1 h2
  | clean t =>
    rw [stepInput, cleanupAt_toolHistory]
    exact ⟨h1, h2⟩

theorem runInputs_history_inv (env : Nat → Option Nat) (inputs : List PInput) :
    ∀ st : ProgressReporter, st.toolHistory.length ≤ 6 →
    noConsecDup st.toolHistory = true →
    (runInputs env st inputs).1.toolHistory.length ≤ 6 ∧
    noConsecDup (runInputs env st inputs).1.toolHistory = true := by
  induction inputs with
  | nil => exact fun st a b => ⟨a, b⟩
  | cons inp rest ih =>
    intro st h1 h2
    rw [runInputs]
    have hA : ∀ stf : ProgressReporter, stf.toolHistory.length ≤ 6 →
        noConsecDup stf.toolHistory = true →
        ((match stf.throttleTimer with
          | some due =>
            if due ≤ inputTime inp then timerFire env stf due else (stf, [])
          | none => (stf, [])) : ProgressReporter × List TgCall).1.toolHistory.length ≤ 6 ∧
        noConsecDup ((match stf.throttleTimer with
          | some due =>
            if due ≤ inputTime inp then timerFire env stf due else (stf, [])
          | none => (stf, [])) : ProgressReporter × List TgCall).1.toolHistory = true := by
      intro stf a b
      cases htt : stf.throttleTimer with
      | none => exact ⟨a, b⟩
      | some due =>
        by_cases hdue : due ≤ inputTime inp
        · simp only [hdue, if_true]
          rw [timerFire_toolHistory]
          exact ⟨a, b⟩
        · simp only [hdue, if_false]
          exact ⟨a, b⟩
    have hAr := hA st h1 h2
    have hB := stepInput_history_inv env _ inp hAr.1 hAr.2
    exact ih _ hB.1 hB.2

/-- C6: after any sequence of `ProgressReporter.report` calls (with any
interleaved timer fires and cleanups), the tool-label history holds at
most 6 entries and never two consecutive identical labels, no matter how
often `report` is called with the same tool name. -/
theorem c6_history_bounded_nodup (env : Nat → Option Nat)
    (chatId : Option String) (inputs : List PInput) :
    (runProgress env (mkReporter chatId) inputs).1.toolHistory.length ≤ 6 ∧
    noConsecDup (runProgress env (mkReporter chatId) inputs).1.toolHistory
      = true := by
  have hrun := runInputs_history_inv env inputs (mkReporter chatId)
    (by simp [mkReporter]) (by rfl)
  rw [runProgress]
  have hfin : ∀ stf : ProgressReporter, stf.toolHistory.length ≤ 6 →
      noConsecDup stf.toolHistory = true →
      (finalizeTimer env stf).1.toolHistory.length ≤ 6 ∧
      noConsecDup (finalizeTimer env stf).1.toolHistory = true := by
    intro stf a b
    rw [finalizeTimer]
    cases htt : stf.throttleTimer with
    | none => exact ⟨a, b⟩
    | some due =>
      rw [timerFire_toolHistory]
      exact ⟨a, b⟩
  exact hfin _ hrun.1 hrun.2

/- ─────────── Progress Reporter: delete counting ─────────── -/

theorem countDeletes_append (c1 c2 : List TgCall) :
    countDeletes (c1 ++ c2) = countDeletes c1 + countDeletes c2 := by
  simp [countDeletes, List.filter_append]

theorem flushAt_countDeletes (env : Nat → Option Nat) (st : ProgressReporter)
    (now : Nat) : countDeletes (flushAt env st now).2 = 0 := by
  cases hdel : st.isDeleted with
  | true =>
    rw [flushAt_deleted env st now hdel]
    rfl
  | false =>
    cases hm : st.messageId with
    | none => rw [flushAt_send env st now hdel hm]; rfl
    | some mid => rw [flushAt_edit env st now mid hdel hm]; rfl

theorem timerFire_countDeletes (env : Nat → Option Nat) (st : ProgressReporter)
    (due : Nat) : countDeletes (timerFire env st due).2 = 0 := by
  cases hdel : st.isDeleted with
  | true =>
    rw [timerFire_deleted env st due hdel]
    rfl
  | false =>
    rw [timerFire_not_deleted env st due hdel]
    exact flushAt_countDeletes env _ due

theorem reportAt_countDeletes (env : Nat → Option Nat) (st : ProgressReporter)
    (now : Nat) (name : String) :
    countDeletes (reportAt env st now name).2 = 0 := by
  cases hdel : st.isDeleted with
  | true =>
    rw [reportAt_deleted env st now name hdel]
    rfl
  | false =>
    cases hc : st.chatId with
    | none =>
      rw [reportAt_noChat env st now name hc]
      rfl
    | some c =>
      have hcn : st.chatId.isNone = false := by rw [hc]; rfl
      by_cases hlast : st.toolHistory.getLast? = some (labelOf name)
      · rw [reportAt_dup env st now name hdel hcn hlast]
        rfl
      · by_cases helapsed : MIN_UPDATE_INTERVAL ≤ now - st.lastUpdateAt
        · rw [reportAt_flush env st now name hdel hcn hlast helapsed]
          exact flushAt_countDeletes env _ now
        · cases htt : st.throttleTimer with
          | none =>
            rw [reportAt_arm env st now name hdel hcn hlast helapsed htt]
            rfl
          | some d =>
            rw [reportAt_pending env st now name d hdel hcn hlast helapsed htt]
            rfl

theorem cleanupAt_countDeletes (st : ProgressReporter) (now : Nat) :
    countDeletes (cleanupAt st now).2 ≤ 1 := by
  cases hm : st.messageId with
  | none =>
    rw [cleanupAt_noMessage st now hm]
    exact Nat.zero_le 1
  | some mid =>
    cases hc : st.chatId with
    | none =>
      rw [cleanupAt_noChat st now hc]
      exact Nat.zero_le 1
    | some c =>
      rw [cleanupAt_delete st now mid c hm hc]
      exact Nat.le_refl 1

theorem cleanupAt_isDeleted (st : ProgressReporter) (now : Nat) :
    (cleanupAt st now).1.isDeleted = true := by
  cases hm : st.messageId with
  | none =>
    rw [cleanupAt_noMessage st now hm]
  | some mid =>
    cases hc : st.chatId with
    | none =>
      rw [cleanupAt_noChat st now hc]
    | some c =>
      rw [cleanupAt_delete st now mid c hm hc]

theorem prefire_countDeletes (env : Nat → Option Nat) (st : ProgressReporter)
    (inp : PInput) :
    countDeletes ((match st.throttleTimer with
      | some due =>
        if due ≤ inputTime inp then timerFire env st due else (st, [])
      | none => (st, [])) : ProgressReporter × List TgCall).2 = 0 := by
  cases htt : st.throttleTimer with
  | none => rfl
  | some due =>
    by_cases hdue : due ≤ inputTime inp
    · simp only [hdue, if_true]
      exact timerFire_countDeletes env st due
    · simp only [hdue, if_false]
      rfl

theorem finalizeTimer_countDeletes (env : Nat → Option Nat)
    (st : ProgressReporter) : countDeletes (finalizeTimer env st).2 = 0 := by
  rw [finalizeTimer]
  cases htt : st.throttleTimer with
  | none => rfl
  | some due => exact timerFire_countDeletes env st due

theorem runInputs_countDeletes (env : Nat → Option Nat) (inputs : List PInput) :
    ∀ st : ProgressReporter,
      countDeletes (runInputs env st inputs).2 ≤ countCleanups inputs := by
  induction inputs with
  | nil =>
    intro st
    exact Nat.le_refl 0
  | cons inp rest ih =>
    intro st
    simp only [runInputs]
    rw [countDeletes_append, countDeletes_append]
    have hA := prefire_countDeletes env st inp
    cases inp with
    | rep t name =>
      have hB := reportAt_countDeletes env ((match st.throttleTimer with
        | some due => if due ≤ inputTime (PInput.rep t name)
            then timerFire env st due else (st, [])
        | none => (st, [])) : ProgressReporter × List TgCall).1 t name
      have hC := ih ((stepInput env (match st.throttleTimer with
        | some due => if due ≤ inputTime (PInput.rep t name)
            then timerFire env st due else (st, [])
        | none => (st, [])).1 (PInput.rep t name)).1)
      have hcc : countCleanups (PInput.rep t name :: rest) = countCleanups rest := by
        simp [countCleanups]
      rw [hcc]
      simp only [stepInput] at hB hC ⊢
      omega
    | clean t =>
      have hB := cleanupAt_countDeletes ((match st.throttleTimer with
        | some due => if due ≤ inputTime (PInput.clean t)
            then timerFire env st due else (st, [])
        | none => (st, [])) : ProgressReporter × List TgCall).1 t
      have hC := ih ((stepInput env (match st.throttleTimer with
        | some due => if due ≤ inputTime (PInput.clean t)
            then timerFire env st due else (st, [])
        | none => (st, [])).1 (PInput.clean t)).1)
      have hcc : countCleanups (PInput.clean t :: rest) = countCleanups rest + 1 := by
        simp [countCleanups, Nat.add_comm]
      rw [hcc]
      simp only [stepInput] at hB hC ⊢
      omega

/-- C4 counterexample: with a delivered progress message, two `cleanup`
calls issue two `deleteMessage` API calls — `cleanup` never clears
`messageId`, so "at most one delete in total" fails. -/
theorem c4_counterexample :
    ¬ countDeletes (runProgress (fun _ => some 7) (mkReporter (some "123"))
        [PInput.rep 3000 "Bash", PInput.clean 4000, PInput.clean 5000]).2 ≤ 1 := by
  decide

/-- C4 as amended: after a `cleanup`, every subsequent `report` is a
no-op (no state change, no external call); each single `cleanup` call
issues at most one delete, `cleanup` always leaves the reporter
terminated, and over any whole run the number of `deleteMessage` calls
never exceeds the number of `cleanup` calls — but it is one delete per
cleanup call with an outstanding message handle, not at most one in
total. -/
theorem c4_amended_cleanup (env : Nat → Option Nat) :
    (∀ (st : ProgressReporter) (now : Nat) (name : String),
      st.isDeleted = true → reportAt env st now name = (st, [])) ∧
    (∀ (st : ProgressReporter) (now : Nat),
      (cleanupAt st now).1.isDeleted = true ∧
      countDeletes (cleanupAt st now).2 ≤ 1) ∧
    (∀ (chatId : Option String) (inputs : List PInput),
      countDeletes (runProgress env (mkReporter chatId) inputs).2
        ≤ countCleanups inputs) := by
  refine ⟨fun st now name h => reportAt_deleted env st now name h,
    fun st now => ⟨cleanupAt_isDeleted st now, cleanupAt_countDeletes st now⟩,
    fun chatId inputs => ?_⟩
  rw [runProgress]
  rw [countDeletes_append]
  have h1 := runInputs_countDeletes env inputs (mkReporter chatId)
  have h2 := finalizeTimer_countDeletes env (runInputs env (mkReporter chatId) inputs).1
  omega

/-- C4 amended witness: a terminated reporter ignores `report`, and the
two-cleanup run above stays within its two cleanup calls. -/
theorem c4_amended_witness :
    reportAt (fun _ => none) ⟨some "123", none, [], 0, none, none, true, 0⟩ 5 "Bash"
      = (⟨some "123", none, [], 0, none, none, true, 0⟩, []) ∧
    countDeletes (runProgress (fun _ => some 7) (mkReporter (some "123"))
        [PInput.rep 3000 "Bash", PInput.clean 4000, PInput.clean 5000]).2
      ≤ countCleanups [PInput.rep 3000 "Bash", PInput.clean 4000, PInput.clean 5000] :=
  ⟨(c4_amended_cleanup (fun _ => none)).1 _ 5 "Bash" rfl,
   (c4_amended_cleanup (fun _ => some 7)).2.2 (some "123")
     [PInput.rep 3000 "Bash", PInput.clean 4000, PInput.clean 5000]⟩

/- ─────────── Progress Reporter: throttle timing (C5) ─────────── -/

theorem flushTimes_append (c1 c2 : List TgCall) :
    flushTimes (c1 ++ c2) = flushTimes c1 ++ flushTimes c2 := by
  simp [flushTimes, List.filter_append]

theorem lastOr_append (b : Nat) (l1 l2 : List Nat) :
    lastOr b (l1 ++ l2) = lastOr (lastOr b l1) l2 := by
  induction l1 generalizing b with
  | nil => rfl
  | cons t rest ih =>
    rw [List.cons_append]
    show lastOr t (rest ++ l2) = lastOr (lastOr t rest) l2
    exact ih t

theorem gapsFrom_append (b : Nat) (l1 l2 : List Nat)
    (h1 : gapsFromOK b l1 = true) (h2 : gapsFromOK (lastOr b l1) l2 = true) :
    gapsFromOK b (l1 ++ l2) = true := by
  induction l1 generalizing b with
  | nil => exact h2
  | cons t rest ih =>
    rw [gapsFromOK, Bool.and_eq_true] at h1
    rw [List.cons_append, gapsFromOK, Bool.and_eq_true]
    exact ⟨h1.1, ih t h1.2 h2⟩

theorem gapsOK_of_from (b : Nat) (l : List Nat)
    (h : gapsFromOK b l = true) : gapsOK l = true := by
  cases l with
  | nil => rfl
  | cons t rest =>
    rw [gapsFromOK, Bool.and_eq_true] at h
    exact h.2

theorem flushAt_spec (env : Nat → Option Nat) (st : ProgressReporter)
    (now : Nat) (h : st.isDeleted = false) :
    (flushAt env st now).1.lastUpdateAt = now ∧
    (flushAt env st now).1.throttleTimer = st.throttleTimer ∧
    (flushAt env st now).1.isDeleted = false ∧
    flushTimes (flushAt env st now).2 = [now] := by
  cases hm : st.messageId with
  | none =>
    rw [flushAt_send env st now h hm]
    exact ⟨rfl, rfl, h, rfl⟩
  | some mid =>
    rw [flushAt_edit env st now mid h hm]
    exact ⟨rfl, rfl, h, rfl⟩

theorem timerFire_spec (env : Nat → Option Nat) (st : ProgressReporter)
    (due : Nat) (hinv : StInv st) (htt : st.throttleTimer = some due) :
    (timerFire env st due).1.lastUpdateAt = due ∧
    (timerFire env st due).1.throttleTimer = none ∧
    (timerFire env st due).1.isDeleted = false ∧
    flushTimes (timerFire env st due).2 = [due] ∧
    due = st.lastUpdateAt + MIN_UPDATE_INTERVAL := by
  obtain ⟨hdue, hdel⟩ := hinv due htt
  rw [timerFire_not_deleted env st due hdel]
  have h2 := flushAt_spec env { st with throttleTimer := none } due hdel
  exact ⟨h2.1, h2.2.1, h2.2.2.1, h2.2.2.2, hdue⟩

theorem cleanupAt_flushTimes (st : ProgressReporter) (now : Nat) :
    flushTimes (cleanupAt st now).2 = [] := by
  cases hm : st.messageId with
  | none => rw [cleanupAt_noMessage st now hm]; rfl
  | some mid =>
    cases hc : st.chatId with
    | none => rw [cleanupAt_noChat st now hc]; rfl
    | some c => rw [cleanupAt_delete st now mid c hm hc]; rfl

theorem cleanupAt_state (st : ProgressReporter) (now : Nat) :
    (cleanupAt st now).1.lastUpdateAt = st.lastUpdateAt ∧
    (cleanupAt st now).1.throttleTimer = none := by
  cases hm : st.messageId with
  | none => rw [cleanupAt_noMessage st now hm]; exact ⟨rfl, rfl⟩
  | some mid =>
    cases hc : st.chatId with
    | none => rw [cleanupAt_noChat st now hc]; exact ⟨rfl, rfl⟩
    | some c => rw [cleanupAt_delete st now mid c hm hc]; exact ⟨rfl, rfl⟩

theorem stepInput_throttle_spec (env : Nat → Option Nat)
    (st : ProgressReporter) (inp : PInput)
    (hle : st.lastUpdateAt ≤ inputTime inp)
    (hinv : StInv st)
    (htimer : ∀ d, st.throttleTimer = some d → inputTime inp < d) :
    StInv (stepInput env st inp).1 ∧
    (stepInput env st inp).1.lastUpdateAt ≤ inputTime inp ∧
    gapsFromOK st.lastUpdateAt (flushTimes (stepInput env st inp).2) = true ∧
    lastOr st.lastUpdateAt (flushTimes (stepInput env st inp).2)
      = (stepInput env st inp).1.lastUpdateAt := by
  cases inp with
  | clean t =>
    have hc := cleanupAt_state st t
    have hf := cleanupAt_flushTimes st t
    simp only [stepInput] at *
    rw [hf]
    refine ⟨?_, ?_, rfl, ?_⟩
    · intro d hd
      rw [hc.2] at hd
      exact Option.noConfusion hd
    · rw [hc.1]; exact hle
    · rw [hc.1]; rfl
  | rep t name =>
    simp only [stepInput, inputTime] at *
    cases hdel : st.isDeleted with
    | true =>
      rw [reportAt_deleted env st t name hdel]
      exact ⟨hinv, hle, rfl, rfl⟩
    | false =>
      cases hc : st.chatId with
      | none =>
        rw [reportAt_noChat env st t name hc]
        exact ⟨hinv, hle, rfl, rfl⟩
      | some c =>
        have hcn : st.chatId.isNone = false := by rw [hc]; rfl
        by_cases hlast : st.toolHistory.getLast? = some (labelOf name)
        · rw [reportAt_dup env st t name hdel hcn hlast]
          exact ⟨hinv, hle, rfl, rfl⟩
        · by_cases helapsed : MIN_UPDATE_INTERVAL ≤ t - st.lastUpdateAt
          · -- immediate flush; an armed timer is impossible here
            have htt : st.throttleTimer = none := by
              cases htt : st.throttleTimer with
              | none => rfl
              | some d =>
                obtain ⟨hd, _⟩ := hinv d htt
                have h1 := htimer d htt
                omega
            rw [reportAt_flush env st t name hdel hcn hlast helapsed]
            have hs := flushAt_spec env
              { st with toolHistory := pushTrim st.toolHistory (labelOf name) } t hdel
            refine ⟨?_, ?_, ?_, ?_⟩
            · intro d hd
              rw [hs.2.1] at hd
              have : st.throttleTimer = some d := hd
              rw [htt] at this
              exact Option.noConfusion this
            · rw [hs.1]
            · rw [hs.2.2.2]
              have : st.lastUpdateAt + MIN_UPDATE_INTERVAL ≤ t := by omega
              simp [gapsFromOK, this]
            · rw [hs.2.2.2, hs.1]
              rfl
          · cases htt : st.throttleTimer with
            | none =>
              rw [reportAt_arm env st t name hdel hcn hlast helapsed htt]
              refine ⟨?_, hle, rfl, rfl⟩
              intro d hd
              simp only at hd
              injection hd with hd
              refine ⟨?_, hdel⟩
              show d = st.lastUpdateAt + MIN_UPDATE_INTERVAL
              omega
            | some d0 =>
              rw [reportAt_pending env st t name d0 hdel hcn hlast helapsed htt]
              refine ⟨?_, hle, rfl, rfl⟩
              intro d hd
              simp only at hd
              exact hinv d hd

theorem prefire_throttle_spec (env : Nat → Option Nat)
    (st : ProgressReporter) (inp : PInput)
    (hle : st.lastUpdateAt ≤ inputTime inp) (hinv : StInv st) :
    StInv ((match st.throttleTimer with
      | some due =>
        if due ≤ inputTime inp then timerFire env st due else (st, [])
      | none => (st, [])) : ProgressReporter × List TgCall).1 ∧
    ((match st.throttleTimer with
      | some due =>
        if due ≤ inputTime inp then timerFire env st due else (st, [])
      | none => (st, [])) : ProgressReporter × List TgCall).1.lastUpdateAt
      ≤ inputTime inp ∧
    gapsFromOK st.lastUpdateAt (flushTimes ((match st.throttleTimer with
      | some due =>
        if due ≤ inputTime inp then timerFire env st due else (st, [])
      | none => (st, [])) : ProgressReporter × List TgCall).2) = true ∧
    lastOr st.lastUpdateAt (flushTimes ((match st.throttleTimer with
      | some due =>
        if due ≤ inputTime inp then timerFire env st due else (st, [])
      | none => (st, [])) : ProgressReporter × List TgCall).2)
      = ((match st.throttleTimer with
      | some due =>
        if due ≤ inputTime inp then timerFire env st due else (st, [])
      | none => (st, [])) : ProgressReporter × List TgCall).1.lastUpdateAt ∧
    ∀ d, ((match st.throttleTimer with
      | some due =>
        if due ≤ inputTime inp then timerFire env st due else (st, [])
      | none => (st, [])) : ProgressReporter × List TgCall).1.throttleTimer
        = some d → inputTime inp < d := by
  cases htt : st.throttleTimer with
  | none =>
    refine ⟨hinv, hle, rfl, rfl, ?_⟩
    intro d hd
    rw [htt] at hd
    exact Option.noConfusion hd
  | some due =>
    by_cases hdue : due ≤ inputTime inp
    · simp only [hdue, if_true]
      have hs := timerFire_spec env st due hinv htt
      refine ⟨?_, ?_, ?_, ?_, ?_⟩
      · intro d hd
        rw [hs.2.1] at hd
        exact Option.noConfusion hd
      · rw [hs.1]
        exact hdue
      · rw [hs.2.2.2.1]
        have hgap : st.lastUpdateAt + MIN_UPDATE_INTERVAL ≤ due := by
          have := hs.2.2.2.2
          omega
        simp [gapsFromOK, hgap]
      · rw [hs.2.2.2.1, hs.1]
        rfl
      · intro d hd
        rw [hs.2.1] at hd
        exact Option.noConfusion hd
    · simp only [hdue, if_false]
      refine ⟨hinv, hle, rfl, rfl, ?_⟩
      intro d hd
      rw [htt] at hd
      injection hd with hd
      omega

theorem timesSorted_cons (inp : PInput) (rest : List PInput)
    (h : timesSorted (inp :: rest) = true) :
    timesSorted rest = true ∧ ∀ i ∈ rest, inputTime inp ≤ inputTime i := by
  induction rest generalizing inp with
  | nil => exact ⟨rfl, by simp⟩
  | cons b r2 ih =>
    rw [timesSorted, Bool.and_eq_true] at h
    have hb := ih b h.2
    refine ⟨h.2, ?_⟩
    intro i hi
    rcases List.mem_cons.mp hi with rfl | hi2
    · exact of_decide_eq_true h.1
    · exact le_trans (of_decide_eq_true h.1) (hb.2 i hi2)

theorem runInputs_throttle_spec (env : Nat → Option Nat)
    (inputs : List PInput) :
    ∀ st : ProgressReporter, timesSorted inputs = true →
    (∀ inp ∈ inputs, st.lastUpdateAt ≤ inputTime inp) →
    StInv st →
    StInv (runInputs env st inputs).1 ∧
    gapsFromOK st.lastUpdateAt (flushTimes (runInputs env st inputs).2) = true ∧
    lastOr st.lastUpdateAt (flushTimes (runInputs env st inputs).2)
      = (runInputs env st inputs).1.lastUpdateAt := by
  induction inputs with
  | nil =>
    intro st _ _ hinv
    exact ⟨hinv, rfl, rfl⟩
  | cons inp rest ih =>
    intro st hsorted hbound hinv
    obtain ⟨hsrest, hmono⟩ := timesSorted_cons inp rest hsorted
    have hle : st.lastUpdateAt ≤ inputTime inp :=
      hbound inp (List.mem_cons_self _ _)
    have hA := prefire_throttle_spec env st inp hle hinv
    have hB := stepInput_throttle_spec env _ inp hA.2.1 hA.1 hA.2.2.2.2
    have hC := ih _ hsrest
      (fun i hi => le_trans hB.2.1 (hmono i hi)) hB.1
    simp only [runInputs]
    refine ⟨hC.1, ?_, ?_⟩
    · rw [flushTimes_append, flushTimes_append]
      refine gapsFrom_append _ _ _ ?_ ?_
      · refine gapsFrom_append _ _ _ hA.2.2.1 ?_
        rw [hA.2.2.2.1]
        exact hB.2.2.1
      · rw [lastOr_append, hA.2.2.2.1, hB.2.2.2]
        exact hC.2.1
    · rw [flushTimes_append, flushTimes_append, lastOr_append, lastOr_append,
        hA.2.2.2.1, hB.2.2.2]
      exact hC.2.2

/-- C5: over any time-sorted sequence of report/cleanup stimuli, no two
flushes of the progress message happen closer together than the
3-second minimum interval, and when a report became pending (the one-shot
timer is still armed after the last stimulus) exactly one trailing flush
happens once the interval since the last flush has elapsed — at
`lastUpdateAt + MIN_UPDATE_INTERVAL` — even though no further report
arrives. -/
theorem c5_trailing_edge_throttle (env : Nat → Option Nat)
    (chatId : Option String) (inputs : List PInput)
    (hs : timesSorted inputs = true) :
    gapsOK (flushTimes (runProgress env (mkReporter chatId) inputs).2) = true ∧
    ∀ due, (runInputs env (mkReporter chatId) inputs).1.throttleTimer = some due →
      due = (runInputs env (mkReporter chatId) inputs).1.lastUpdateAt
              + MIN_UPDATE_INTERVAL ∧
      flushTimes (finalizeTimer env
        (runInputs env (mkReporter chatId) inputs).1).2 = [due] := by
  have hinv0 : StInv (mkReporter chatId) := by
    intro d hd
    exact Option.noConfusion hd
  have hrun := runInputs_throttle_spec env inputs (mkReporter chatId) hs
    (fun inp _ => Nat.zero_le _) hinv0
  constructor
  · simp only [runProgress]
    rw [flushTimes_append]
    refine gapsOK_of_from 0 _ ?_
    refine gapsFrom_append _ _ _ hrun.2.1 ?_
    have hlast : lastOr 0 (flushTimes (runInputs env (mkReporter chatId) inputs).2)
        = (runInputs env (mkReporter chatId) inputs).1.lastUpdateAt := hrun.2.2
    rw [hlast]
    rw [finalizeTimer]
    cases htt : (runInputs env (mkReporter chatId) inputs).1.throttleTimer with
    | none => rfl
    | some due =>
      have hs2 := timerFire_spec env _ due hrun.1 htt
      rw [hs2.2.2.2.1]
      have hgap : (runInputs env (mkReporter chatId) inputs).1.lastUpdateAt
          + MIN_UPDATE_INTERVAL ≤ due := by
        have := hs2.2.2.2.2
        omega
      simp [gapsFromOK, hgap]
  · intro due hd
    obtain ⟨hdue, hdel⟩ := hrun.1 due hd
    refine ⟨hdue, ?_⟩
    rw [finalizeTimer, hd]
    exact (timerFire_spec env _ due hrun.1 hd).2.2.2.1

/-- C5 witness: two reports inside the interval coalesce into one
trailing flush at exactly `lastUpdateAt + MIN_UPDATE_INTERVAL` = 3000. -/
theorem c5_witness :
    gapsOK (flushTimes (runProgress (fun _ => some 7) (mkReporter (some "123"))
        [PInput.rep 1000 "Bash", PInput.rep 2000 "Read"]).2) = true ∧
    flushTimes (finalizeTimer (fun _ => some 7)
        (runInputs (fun _ => some 7) (mkReporter (some "123"))
          [PInput.rep 1000 "Bash", PInput.rep 2000 "Read"]).1).2 = [3000] := by
  have h := c5_trailing_edge_throttle (fun _ => some 7) (some "123")
    [PInput.rep 1000 "Bash", PInput.rep 2000 "Read"] (by decide)
  exact ⟨h.1, (h.2 3000 (by decide)).2⟩
